import Mathlib

/-!
Verification of the staged query-graph generation engine
(`questionanswering/construction/staged_generation.py`).

The Python module drives a best-first search over candidate logical-form
graphs.  External collaborators (the WikiData access layer `wdaccess`, the
graph operators `stages.restrict`/`stages.expand`, the entity linker, the
evaluation metric and the learned scorer) are modelled as oracle parameters
collected in the `Oracles` structure.  Scores are modelled as rationals (only
comparisons on them matter to the control flow).  Python dictionaries for
edges become records with optional fields; a key that may be present with
value `None` (such as `hopUp`) becomes `Option (Option String)`.
-/

/-- The (precision, recall, f1) triple produced by
`evaluation.retrieval_prec_rec_f1_with_altlabels`. -/
structure EvalScore where
  prec : ℚ
  recl : ℚ
  f1 : ℚ
deriving DecidableEq, Repr

/-- An edge of a semantic graph: a Python dict with the optional keys used by
`staged_generation.py`.  `hopUp`/`hopDown` may be present with value `None`
(`some none`) or absent (`none`), mirroring `'hopUp' in edge`. -/
structure Edge where
  type : Option String := none
  kbID : Option String := none
  rightkbID : Option String := none
  hopUp : Option (Option String) := none
  hopDown : Option (Option String) := none
  canonical_right : Option String := none
deriving DecidableEq, Repr

/-- An entity: a span of tokens, a coarse tag, and after linking a list of
candidate KB identifiers (`ids = none` models a 2-element entity).
`isTuple` records whether the Python object is a tuple (immutable) or a
list (mutable), which matters because `link_entities_in_graph` converts
entities to tuples on exit and later assigns `entity[2]` in place. -/
structure Entity where
  span : List String
  tag : String
  ids : Option (List String) := none
  isTuple : Bool := true
deriving DecidableEq, Repr

/-- A candidate logical-form graph (a Python dict).  Absent keys collapse to
the defaults, matching the pervasive `g.get(key, default)` accesses. -/
structure Graph where
  edgeSet : List Edge := []
  entities : List Entity := []
  tokens : List String := []
  filter : Option String := none
deriving DecidableEq, Repr

/-- A grounding returned by WikiData: a dict from variable names such as
`r0d`, `hop1v`, `e20` to concrete identifiers. -/
def Grounding := List (String × String)
deriving DecidableEq, Repr

/-- Dict lookup on a grounding. -/
def Grounding.find (gr : Grounding) (k : String) : Option String :=
  List.lookup k gr

/-- A chosen ("positive") candidate: `(graph, (p, r, f1), retrieved answer
sets)`. -/
abbrev Cand := Graph × EvalScore × List (List String)

/-- A rejected ("negative") candidate: `(graph, (0,0,0), number of retrieved
answer sets)`. -/
abbrev NCand := Graph × EvalScore × Nat

/-- The f-score component of a pool entry, `x[1][2]` in the Python code. -/
def f1OfCand (c : Cand) : ℚ := c.2.1.f1

/-- The literal `0.01` of `ground_one_with_gold`, as a normalized rational
(so that concrete runs reduce inside the kernel). -/
def q001 : ℚ := Rat.mk' 1 100 (by norm_num) (by norm_num)

/-- The literal `0.05` of the bonus round in `generate_with_gold`. -/
def q005 : ℚ := Rat.mk' 1 20 (by norm_num) (by norm_num)

/-- The literal `0.7` of the refinement gate in `generate_with_gold`. -/
def q07 : ℚ := Rat.mk' 7 10 (by norm_num) (by norm_num)

/-- The literal `0.9` of the stopping rule in `generate_with_gold`. -/
def q09 : ℚ := Rat.mk' 9 10 (by norm_num) (by norm_num)

theorem q001_eq : q001 = 1 / 100 := by
  rw [q001, Rat.mk'_eq_divInt, Rat.divInt_eq_div]; norm_num

theorem q005_eq : q005 = 1 / 20 := by
  rw [q005, Rat.mk'_eq_divInt, Rat.divInt_eq_div]; norm_num

theorem q07_eq : q07 = 7 / 10 := by
  rw [q07, Rat.mk'_eq_divInt, Rat.divInt_eq_div]; norm_num

theorem q09_eq : q09 = 9 / 10 := by
  rw [q09, Rat.mk'_eq_divInt, Rat.divInt_eq_div]; norm_num

/-- The grounding key `"e2" + str(i)`. -/
def e2Key (i : Nat) : String := "e2" ++ toString i

/-- The grounding key `"hop{}v".format(i)`. -/
def hopKey (i : Nat) : String := "hop" ++ toString i ++ "v"

/-- The grounding key `"r{}d".format(i)` (and its `r`/`v` variants). -/
def rKey (i : Nat) (s : String) : String := "r" ++ toString i ++ s

/-- The per-edge update of `apply_grounding`: the body of the
`for i, edge in enumerate(grounded.get('edgeSet', []))` loop. -/
def groundEdge (grounding : Grounding) (i : Nat) (edge : Edge) : Edge :=
  let e1 := match grounding.find (e2Key i) with
    | some v => { edge with rightkbID := some v }
    | none => edge
  let e2 := match grounding.find (hopKey i) with
    | some v =>
        if e1.hopUp.isSome then { e1 with hopUp := some (some v) }
        else { e1 with hopDown := some (some v) }
    | none => e1
  match grounding.find (rKey i "d") with
  | some v => { e2 with kbID := some v, type := some "direct" }
  | none => match grounding.find (rKey i "r") with
    | some v => { e2 with kbID := some v, type := some "reverse" }
    | none => match grounding.find (rKey i "v") with
      | some v => { e2 with kbID := some v, type := some "v-structure" }
      | none => e2

/-- Python `apply_grounding(g, grounding)`: copy the graph and apply the encoded
variable assignments edge by edge. -/
def apply_grounding (g : Graph) (grounding : Grounding) : Graph :=
  { g with edgeSet := g.edgeSet.enum.map fun p => groundEdge grounding p.1 p.2 }

/-- A grounding is well-formed for edge `i` when at most one of the three
relation variables `r{i}d`, `r{i}r`, `r{i}v` is present (the spec: "at most
one present per edge per grounding"). -/
def atMostOneR (gr : Grounding) (i : Nat) : Prop :=
  ((gr.find (rKey i "d")).isSome → (gr.find (rKey i "r")).isNone ∧ (gr.find (rKey i "v")).isNone) ∧
  ((gr.find (rKey i "r")).isSome → (gr.find (rKey i "v")).isNone)

instance (gr : Grounding) (i : Nat) : Decidable (atMostOneR gr i) := by
  unfold atMostOneR; infer_instance

theorem groundEdge_rd (gr : Grounding) (i : Nat) (e : Edge) (v : String)
    (h : gr.find (rKey i "d") = some v) :
    (groundEdge gr i e).kbID = some v ∧ (groundEdge gr i e).type = some "direct" := by
  simp [groundEdge, h]

theorem groundEdge_unmentioned (gr : Grounding) (i : Nat) (e : Edge)
    (hd : gr.find (rKey i "d") = none) (hr : gr.find (rKey i "r") = none)
    (hv : gr.find (rKey i "v") = none) (hh : gr.find (hopKey i) = none)
    (he : gr.find (e2Key i) = none) :
    groundEdge gr i e = e := by
  simp only [groundEdge, hd, hr, hv, hh, he]

theorem groundEdge_rr (gr : Grounding) (i : Nat) (e : Edge) (v : String)
    (hwf : atMostOneR gr i) (h : gr.find (rKey i "r") = some v) :
    (groundEdge gr i e).kbID = some v ∧ (groundEdge gr i e).type = some "reverse" := by
  have hd : gr.find (rKey i "d") = none := by
    cases hd : gr.find (rKey i "d") with
    | none => rfl
    | some w => exact absurd (hwf.1 (by simp [hd])).1 (by simp [h])
  simp [groundEdge, hd, h]

theorem groundEdge_rv (gr : Grounding) (i : Nat) (e : Edge) (v : String)
    (hwf : atMostOneR gr i) (h : gr.find (rKey i "v") = some v) :
    (groundEdge gr i e).kbID = some v ∧ (groundEdge gr i e).type = some "v-structure" := by
  have hd : gr.find (rKey i "d") = none := by
    cases hd : gr.find (rKey i "d") with
    | none => rfl
    | some w => exact absurd (hwf.1 (by simp [hd])).2 (by simp [h])
  have hr : gr.find (rKey i "r") = none := by
    cases hr : gr.find (rKey i "r") with
    | none => rfl
    | some w => exact absurd (hwf.2 (by simp [hr])) (by simp [h])
  simp [groundEdge, hd, hr, h]

theorem groundEdge_hop (gr : Grounding) (i : Nat) (e : Edge) (v : String)
    (h : gr.find (hopKey i) = some v) :
    (e.hopUp.isSome → (groundEdge gr i e).hopUp = some (some v)) ∧
    (e.hopUp = none → (groundEdge gr i e).hopDown = some (some v)) := by
  rcases he : gr.find (e2Key i) with _ | dv <;>
  rcases hu : e.hopUp with _ | u <;>
  rcases h1 : gr.find (rKey i "d") with _ | v1 <;>
  rcases h2 : gr.find (rKey i "r") with _ | v2 <;>
  rcases h3 : gr.find (rKey i "v") with _ | v3 <;>
    simp [groundEdge, he, hu, h, h1, h2, h3]

theorem groundEdge_e2 (gr : Grounding) (i : Nat) (e : Edge) (v : String)
    (h : gr.find (e2Key i) = some v) :
    (groundEdge gr i e).rightkbID = some v := by
  rcases hh : gr.find (hopKey i) with _ | hv <;>
  rcases hu : e.hopUp with _ | u <;>
  rcases h1 : gr.find (rKey i "d") with _ | v1 <;>
  rcases h2 : gr.find (rKey i "r") with _ | v2 <;>
  rcases h3 : gr.find (rKey i "v") with _ | v3 <;>
    simp [groundEdge, hh, hu, h, h1, h2, h3]

theorem apply_grounding_edge (g : Graph) (gr : Grounding) (i : Nat)
    (h : i < g.edgeSet.length) (h2 : i < (apply_grounding g gr).edgeSet.length) :
    (apply_grounding g gr).edgeSet.get ⟨i, h2⟩ = groundEdge gr i (g.edgeSet.get ⟨i, h⟩) := by
  simp [apply_grounding]

theorem apply_grounding_edge_count (g : Graph) (gr : Grounding) :
    (apply_grounding g gr).edgeSet.length = g.edgeSet.length := by
  simp [apply_grounding]

/-- C3: `apply_grounding` returns a copy of the input graph in which, for
each edge index `i`, `r{i}d`/`r{i}r`/`r{i}v` set that edge's `kbID` and its
`type` to direct/reverse/v-structure, `hop{i}v` sets `hopUp` when the edge
already has a `hopUp` key and `hopDown` otherwise, `e2{i}` sets `rightkbID`,
and an edge whose index is mentioned by no variable is an unchanged copy of
the input edge.  The non-edge fields of the graph are copied unchanged.
The grounding is assumed well-formed: at most one of the three relation
variables is present per edge. -/
theorem apply_grounding_round_trip (g : Graph) (gr : Grounding)
    (hwf : ∀ i, i < g.edgeSet.length → atMostOneR gr i) :
    (apply_grounding g gr).edgeSet.length = g.edgeSet.length ∧
    (apply_grounding g gr).entities = g.entities ∧
    (apply_grounding g gr).tokens = g.tokens ∧
    (apply_grounding g gr).filter = g.filter ∧
    ∀ (i : Nat) (h : i < g.edgeSet.length) (h2 : i < (apply_grounding g gr).edgeSet.length),
      (∀ v, gr.find (rKey i "d") = some v →
        ((apply_grounding g gr).edgeSet.get ⟨i, h2⟩).kbID = some v ∧
        ((apply_grounding g gr).edgeSet.get ⟨i, h2⟩).type = some "direct") ∧
      (∀ v, gr.find (rKey i "r") = some v →
        ((apply_grounding g gr).edgeSet.get ⟨i, h2⟩).kbID = some v ∧
        ((apply_grounding g gr).edgeSet.get ⟨i, h2⟩).type = some "reverse") ∧
      (∀ v, gr.find (rKey i "v") = some v →
        ((apply_grounding g gr).edgeSet.get ⟨i, h2⟩).kbID = some v ∧
        ((apply_grounding g gr).edgeSet.get ⟨i, h2⟩).type = some "v-structure") ∧
      (∀ v, gr.find (hopKey i) = some v →
        ((g.edgeSet.get ⟨i, h⟩).hopUp.isSome →
          ((apply_grounding g gr).edgeSet.get ⟨i, h2⟩).hopUp = some (some v)) ∧
        ((g.edgeSet.get ⟨i, h⟩).hopUp = none →
          ((apply_grounding g gr).edgeSet.get ⟨i, h2⟩).hopDown = some (some v))) ∧
      (∀ v, gr.find (e2Key i) = some v →
        ((apply_grounding g gr).edgeSet.get ⟨i, h2⟩).rightkbID = some v) ∧
      (gr.find (rKey i "d") = none → gr.find (rKey i "r") = none →
       gr.find (rKey i "v") = none → gr.find (hopKey i) = none →
       gr.find (e2Key i) = none →
       (apply_grounding g gr).edgeSet.get ⟨i, h2⟩ = g.edgeSet.get ⟨i, h⟩) := by
  refine ⟨apply_grounding_edge_count g gr, rfl, rfl, rfl, ?_⟩
  intro i h h2
  rw [apply_grounding_edge g gr i h h2]
  exact ⟨fun v hv => groundEdge_rd gr i _ v hv,
         fun v hv => groundEdge_rr gr i _ v (hwf i h) hv,
         fun v hv => groundEdge_rv gr i _ v (hwf i h) hv,
         fun v hv => groundEdge_hop gr i _ v hv,
         fun v hv => groundEdge_e2 gr i _ v hv,
         fun hd hr hv hh he => groundEdge_unmentioned gr i _ hd hr hv hh he⟩

/-- A concrete graph for exercising `apply_grounding`: its first edge
declares a `hopUp` key with value `None`, its second edge is bare. -/
def gC3 : Graph := { edgeSet := [{ hopUp := some none }, {}] }

/-- A concrete grounding touching both edges of `gC3`. -/
def grC3 : Grounding :=
  [("r0d", "P31v"), ("hop0v", "P131v"), ("e21", "Q18"), ("r1r", "P39v")]

theorem apply_grounding_round_trip_witness :
    (∀ i, i < gC3.edgeSet.length → atMostOneR grC3 i) ∧
    (apply_grounding gC3 grC3).edgeSet.length = gC3.edgeSet.length ∧
    ((apply_grounding gC3 grC3).edgeSet.get ⟨0, by decide⟩).kbID = some "P31v" ∧
    ((apply_grounding gC3 grC3).edgeSet.get ⟨0, by decide⟩).type = some "direct" := by
  have hwf : ∀ i, i < gC3.edgeSet.length → atMostOneR grC3 i := by decide
  have hspec := apply_grounding_round_trip gC3 grC3 hwf
  refine ⟨hwf, hspec.1, ?_⟩
  have h0 := (hspec.2.2.2.2 0 (by decide) (by decide)).1 "P31v" (by decide)
  exact ⟨h0.1, h0.2⟩

/-- Python `s[:-1]` on a string. -/
def pyInit (s : String) : String := String.mk s.data.dropLast

/-- Python `s[-1]` on a string: fails (IndexError) on the empty string. -/
def pyLastChar (s : String) : Except String Char :=
  match s.data.getLast? with
  | some c => .ok c
  | none => .error "IndexError"

/-- Python `s.lower()` (ASCII case folding). -/
def pyLower (s : String) : String := String.mk (s.data.map Char.toLower)

/-- Holds when `needle` is a prefix of `hay` (on character lists). -/
def chPre : List Char → List Char → Bool
  | [], _ => true
  | _ :: _, [] => false
  | a :: as, b :: bs => a == b && chPre as bs

/-- Holds when `needle` occurs as a contiguous substring of `hay` (on character lists). -/
def chSub (needle : List Char) : List Char → Bool
  | [] => chPre needle []
  | c :: t => chPre needle (c :: t) || chSub needle t

/-- Python `sub in hay` on strings. -/
def pyContains (hay sub : String) : Bool := chSub sub.data hay.data

/-- Whitespace as recognized by Python `str.split()` / `str.strip()`. -/
def pyWs (c : Char) : Bool := c == ' ' || c == '\t' || c == '\n' || c == '\r'

/-- Helper for `pySplit`: `cur` is the current word, reversed. -/
def pySplitAux : List Char → List Char → List String
  | [], cur => if cur.isEmpty then [] else [String.mk cur.reverse]
  | c :: cs, cur =>
    if pyWs c then
      if cur.isEmpty then pySplitAux cs []
      else String.mk cur.reverse :: pySplitAux cs []
    else pySplitAux cs (c :: cur)

/-- Python `s.split()`: split on whitespace runs, dropping empty fields. -/
def pySplit (s : String) : List String := pySplitAux s.data []

/-- Python `s.strip()`. -/
def pyStrip (s : String) : String :=
  String.mk (((s.data.dropWhile (pyWs ·)).reverse.dropWhile (pyWs ·)).reverse)

/-- Python `" ".join(parts)`. -/
def pyJoin (sep : String) (parts : List String) : String := String.intercalate sep parts

/-- The external collaborators of `staged_generation.py` (the `wdaccess`
query layer, the `stages` graph operators, the entity linker, the evaluation
metric, the learned scorer, the helpers of `construction.graph` that are not
part of this module) together with the module-level configuration
`generation_p`, the `v_structure_markers` resource and the fuel bounds used
to model the Python `for` loops that iterate over lists they append to. -/
structure Oracles where
  query_graph_groundings : Graph → List Grounding
  query_graph_denotations : Graph → List String
  filter_denotation_by_importance : List String → List String
  label_query_results : List String → List (List String)
  map_query_results : List String → List (List String)
  label_entity : String → Option String
  demonym_query : String → List String
  restrict : Graph → List Graph
  expand : Graph → List Graph
  link_entity : Entity → List String
  character_linkings : String → String → List String
  scores_for_instance : List Graph → List ℚ
  add_string_representations : Graph → Graph
  replace_entities : Graph → Graph
  get_graph_last_edge : Graph → Edge
  retrieval_prec_rec_f1 : List String → List (List String) → EvalScore
  property_whitelist : List String
  v_structure_markers : List String
  max_entity_options : Nat := 3
  label_results_flag : Bool := true
  replace_entities_flag : Bool := true
  use_whitelist_flag : Bool := false
  importance_fuel : Nat := 100
  pp_fuel : Nat := 100

/-- A trivial oracle instance used to instantiate witnesses. -/
def extTrivial : Oracles where
  query_graph_groundings := fun _ => []
  query_graph_denotations := fun _ => []
  filter_denotation_by_importance := id
  label_query_results := fun _ => []
  map_query_results := fun _ => []
  label_entity := fun _ => none
  demonym_query := fun _ => []
  restrict := fun _ => []
  expand := fun _ => []
  link_entity := fun _ => []
  character_linkings := fun _ _ => []
  scores_for_instance := fun _ => []
  add_string_representations := id
  replace_entities := id
  get_graph_last_edge := fun _ => {}
  retrieval_prec_rec_f1 := fun _ _ => ⟨0, 0, 0⟩
  property_whitelist := []
  v_structure_markers := []

/-- Python `not ('type' in e and 'kbID' in e)`: the edge still has to be grounded. -/
def freeEdge (e : Edge) : Bool := !(e.type.isSome && e.kbID.isSome)

/-- The count `num_edges_to_ground` in `find_groundings`. -/
def numEdgesToGround (g : Graph) : Nat := (g.edgeSet.filter freeEdge).length

/-- Python `any('hopUp' in e or 'hopDown' in e for e in edgeSet if free(e))`. -/
def freeHasHop (g : Graph) : Bool :=
  g.edgeSet.any fun e => freeEdge e && (e.hopUp.isSome || e.hopDown.isSome)

/-- Python `any(w in set(g.get('tokens', [])) for w in v_structure_markers)`. -/
def hasVMarker (o : Oracles) (g : Graph) : Bool :=
  o.v_structure_markers.any fun w => g.tokens.contains w

/-- Python `itertools.product(*[['direct', 'reverse']] * k)`, in the same order. -/
def typeCombos : Nat → List (List String)
  | 0 => [[]]
  | k + 1 => ["direct", "reverse"].flatMap fun c => (typeCombos k).map (c :: ·)

/-- Tag the free edges of an edge list, in order, with the given type
combination (the `for i, edge in enumerate([e for e in t.edgeSet if free])`
loop; the combination always covers all free edges at the call sites). -/
def assignFreeTypes : List Edge → List String → List Edge
  | [], _ => []
  | e :: es, combo =>
    if freeEdge e then
      match combo with
      | c :: cs => { e with type := some c } :: assignFreeTypes es cs
      | [] => e :: es
    else e :: assignFreeTypes es combo

/-- A copy of `g` whose free edges are tagged with `combo`. -/
def assignTypes (g : Graph) (combo : List String) : Graph :=
  { g with edgeSet := assignFreeTypes g.edgeSet combo }

/-- Tag the first free edge with type `v-structure`. -/
def assignVFirst : List Edge → List Edge
  | [] => []
  | e :: es =>
    if freeEdge e then { e with type := some "v-structure" } :: es
    else e :: assignVFirst es

/-- A copy of `g` whose first free edge is tagged `v-structure`. -/
def assignVStructure (g : Graph) : Graph := { g with edgeSet := assignVFirst g.edgeSet }

/-- The graphs that `find_groundings` passes to
`wdaccess.query_graph_groundings`, in call order. -/
def find_groundings_queries (o : Oracles) (g : Graph) : List Graph :=
  (if !freeHasHop g then [g]
   else (typeCombos (numEdgesToGround g)).map (assignTypes g)) ++
  (if hasVMarker o g && (numEdgesToGround g == 1) then [assignVStructure g] else [])

/-- Python `find_groundings(g)`: the concatenated query results. -/
def find_groundings (o : Oracles) (g : Graph) : List Grounding :=
  (find_groundings_queries o g).flatMap o.query_graph_groundings

theorem typeCombos_length (k : Nat) : (typeCombos k).length = 2 ^ k := by
  induction k with
  | zero => rfl
  | succ n ih =>
    simp [typeCombos, List.length_flatMap, ih, pow_succ]
    ring

/-- C6: when no free edge carries a hop marker, `find_groundings` issues
exactly one joint grounding query on the skeleton itself, followed — when a
v-structure marker token is present and exactly one edge is free — by one
additional query with that edge tagged `v-structure` (the whole query list
is pinned in that case); when some free edge carries `hopUp`/`hopDown` it
instead issues one query per type-assignment in the Cartesian product of
direct/reverse over the `k` free edges (`2 ^ k` queries, the first block of
the query list), again followed by the single appended v-structure query
when it applies; the returned groundings are the concatenation of the
per-query results. -/
theorem find_groundings_spec (o : Oracles) (g : Graph) :
    (freeHasHop g = false →
      find_groundings_queries o g =
        [g] ++ (if hasVMarker o g && (numEdgesToGround g == 1)
                then [assignVStructure g] else [])) ∧
    (freeHasHop g = true →
      (find_groundings_queries o g).length =
        2 ^ numEdgesToGround g +
          (if hasVMarker o g && (numEdgesToGround g == 1) then 1 else 0) ∧
      (find_groundings_queries o g).take (2 ^ numEdgesToGround g) =
        (typeCombos (numEdgesToGround g)).map (assignTypes g)) ∧
    ((hasVMarker o g && (numEdgesToGround g == 1)) = true →
      (find_groundings_queries o g).getLast? = some (assignVStructure g)) ∧
    find_groundings o g =
      (find_groundings_queries o g).flatMap o.query_graph_groundings := by
  refine ⟨?_, ?_, ?_, rfl⟩
  · intro h1
    simp [find_groundings_queries, h1]
  · intro h1
    constructor
    · rcases h2 : hasVMarker o g && (numEdgesToGround g == 1) with _ | _ <;>
        simp [find_groundings_queries, h1, h2, typeCombos_length]
    · show List.take _ (find_groundings_queries o g) = _
      rw [find_groundings_queries, h1]
      simp only [Bool.not_true, Bool.false_eq_true, if_false]
      apply List.take_left'
      simp [typeCombos_length]
  · intro h2
    rcases h1 : freeHasHop g with _ | _ <;>
      simp [find_groundings_queries, h1, h2, List.getLast?_concat]

/-- A skeleton with two free edges, the first carrying a `hopUp` key. -/
def gC6 : Graph := { edgeSet := [{ hopUp := some none }, {}] }

/-- A hop-free skeleton with a single free edge under a v-structure marker
token: the canonical v-structure scenario. -/
def gC6v : Graph := { tokens := ["who"], edgeSet := [{}] }

/-- Oracles whose v-structure marker list contains `"who"`. -/
def oC6v : Oracles := { extTrivial with v_structure_markers := ["who"] }

theorem find_groundings_spec_witness :
    freeHasHop gC6 = true ∧
    (find_groundings_queries extTrivial gC6).length = 2 ^ 2 + 0 ∧
    freeHasHop gC6v = false ∧
    find_groundings_queries oC6v gC6v = [gC6v, assignVStructure gC6v] := by
  have hhop := (find_groundings_spec extTrivial gC6).2.1 (by decide)
  have h2 : numEdgesToGround gC6 = 2 := by decide
  rw [h2] at hhop
  have hv := (find_groundings_spec oC6v gC6v).1 (by decide)
  refine ⟨by decide, by simpa using hhop.1, by decide, ?_⟩
  rw [hv]
  decide

instance {ε α : Type} [DecidableEq ε] [DecidableEq α] : DecidableEq (Except ε α) := fun x y =>
  match x, y with
  | .error a, .error b =>
    if h : a = b then .isTrue (by rw [h]) else .isFalse (fun hh => h (Except.error.inj hh))
  | .ok a, .ok b =>
    if h : a = b then .isTrue (by rw [h]) else .isFalse (fun hh => h (Except.ok.inj hh))
  | .error _, .ok _ => .isFalse (fun hh => Except.noConfusion hh)
  | .ok _, .error _ => .isFalse (fun hh => Except.noConfusion hh)

/-- The per-entity linking step: `list(entity) + [entity_linking.link_entity(entity)]`
for 2-element non-`CD` entities, identity otherwise. -/
def linkOneEntity (o : Oracles) (e : Entity) : Entity :=
  if e.ids.isNone && !(e.tag == "CD") then
    { span := e.span, tag := e.tag, ids := some (o.link_entity e), isTuple := false }
  else e

/-- The indices of the entities selected by
`[e for e in entities if e[1] == "PERSON" and len(e[0]) == 1 and len(e) == 3]`. -/
def personIdxs (ents : List Entity) : List Nat :=
  (List.range ents.length).filter fun i =>
    match ents.get? i with
    | some e => e.tag == "PERSON" && e.span.length == 1 && e.ids.isSome
    | none => false

/-- Python `[e_id for e in entities for e_id in e[2] if e != entity and
len(e) == 3]`: the subscript `e[2]` is evaluated for every entity before the
condition, so a still 2-element entity raises an `IndexError`; for a
3-element entity the `len(e) == 3` conjunct is vacuously true and the
condition reduces to `e != entity`. -/
def filmIdsFor : List Entity → Entity → Except String (List String)
  | [], _ => .ok []
  | e :: es, ent =>
    match e.ids with
    | none => .error "IndexError"
    | some ids => do
      let rest ← filmIdsFor es ent
      .ok ((if e ≠ ent then ids else []) ++ rest)

/-- The inner `for film_id in [...]` loop: prepend the character linkings for
each film id and re-truncate to `max.entity.options` (default 3). -/
def filmLoop (o : Oracles) (name : String) : List String → List String → List String
  | [], ids => ids
  | f :: fs, ids =>
    filmLoop o name fs ((o.character_linkings name f ++ ids).take o.max_entity_options)

/-- The character-role block of `link_entities_in_graph`, iterating over the
selected person entities.  Assigning `entity[2]` on a tuple (an entity that
entered the function already 3-element) raises a `TypeError` in Python. -/
def personsLoop (o : Oracles) : List Nat → List Entity → Except String (List Entity)
  | [], ents => .ok ents
  | p :: ps, ents =>
    match ents.get? p with
    | none => personsLoop o ps ents
    | some ent => do
      let filmIds ← filmIdsFor ents ent
      if filmIds.isEmpty then personsLoop o ps ents
      else if ent.isTuple then .error "TypeError"
      else
        personsLoop o ps
          (ents.set p
            { ent with
              ids := some (filmLoop o (pyJoin " " ent.span) filmIds (ent.ids.getD [])) })

/-- Python `link_entities_in_graph(ungrounded_graph)`: no-op if every entity already
has 3 elements; otherwise link each 2-element non-numeral entity, run the
character-role heuristic when a v-structure marker token is present, convert
the entities to tuples, and store them back in the graph. -/
def link_entities_in_graph (o : Oracles) (g : Graph) : Except String Graph :=
  if g.entities.all (fun e => e.ids.isSome) then .ok g
  else
    let ents1 := g.entities.map (linkOneEntity o)
    (if hasVMarker o g then personsLoop o (personIdxs ents1) ents1 else .ok ents1).map
      fun ents2 => { g with entities := ents2.map fun e => { e with isTuple := true } }

theorem linkOne_fix (o : Oracles) (e : Entity) (h : e.ids = none → e.tag = "CD") :
    linkOneEntity o e = e := by
  unfold linkOneEntity
  cases hid : e.ids with
  | some v => simp [hid]
  | none => simp [hid, h hid]

theorem ents1_none_tag (o : Oracles) (l : List Entity) :
    ∀ e ∈ l.map (linkOneEntity o), e.ids = none → e.tag = "CD" := by
  intro e he hid
  rcases List.mem_map.mp he with ⟨e0, _, he0⟩
  unfold linkOneEntity at he0
  by_cases hc : (e0.ids.isNone && !(e0.tag == "CD")) = true
  · rw [if_pos hc] at he0
    rw [← he0] at hid
    cases hid
  · rw [if_neg hc] at he0
    rw [← he0]
    rw [← he0] at hid
    simp only [Bool.and_eq_true, Bool.not_eq_true, not_and] at hc
    have h1 : e0.ids.isNone = true := by rw [hid]; rfl
    have h2 := hc h1
    simpa using h2

theorem filmIdsFor_error (ents : List Entity) (e0 : Entity) (h0 : e0 ∈ ents)
    (hid : e0.ids = none) (ent : Entity) :
    filmIdsFor ents ent = .error "IndexError" := by
  induction ents with
  | nil => cases h0
  | cons a t ih =>
    rcases List.mem_cons.mp h0 with h | h
    · rw [h] at hid
      simp [filmIdsFor, hid]
    · cases ha : a.ids with
      | none => simp [filmIdsFor, ha]
      | some v => simp [filmIdsFor, ha, bind, Except.bind, ih h]

theorem personsLoop_none_src (o : Oracles) :
    ∀ (ps : List Nat) (ents ents' : List Entity),
      personsLoop o ps ents = .ok ents' →
      ∀ e2 ∈ ents', e2.ids = none → ∃ e ∈ ents, e.ids = none := by
  intro ps
  induction ps with
  | nil =>
    intro ents ents' h e2 he2 hid
    cases h
    exact ⟨e2, he2, hid⟩
  | cons p ps ih =>
    intro ents ents' h e2 he2 hid
    simp only [personsLoop] at h
    cases hg : ents.get? p with
    | none =>
      rw [hg] at h
      exact ih ents ents' h e2 he2 hid
    | some ent =>
      rw [hg] at h
      simp only [bind, Except.bind] at h
      cases hf : filmIdsFor ents ent with
      | error e => rw [hf] at h; cases h
      | ok filmIds =>
        rw [hf] at h
        simp only at h
        by_cases he : filmIds.isEmpty = true
        · rw [if_pos he] at h
          exact ih ents ents' h e2 he2 hid
        · rw [if_neg he] at h
          by_cases ht : ent.isTuple = true
          · rw [if_pos ht] at h
            cases h
          · rw [if_neg ht] at h
            rcases ih _ ents' h e2 he2 hid with ⟨e, hee, hide⟩
            rcases List.mem_or_eq_of_mem_set hee with hee2 | hee2
            · exact ⟨e, hee2, hide⟩
            · rw [hee2] at hide
              cases hide

theorem personsLoop_stuck (o : Oracles) (e0 : Entity) (hid : e0.ids = none) :
    ∀ (ps : List Nat) (ents ents' : List Entity), e0 ∈ ents →
      personsLoop o ps ents = .ok ents' →
      ents' = ents ∧ ∀ p ∈ ps, ents.get? p = none := by
  intro ps
  induction ps with
  | nil =>
    intro ents ents' h0 h
    cases h
    exact ⟨rfl, fun p hp => absurd hp (List.not_mem_nil p)⟩
  | cons p ps ih =>
    intro ents ents' h0 h
    simp only [personsLoop] at h
    cases hg : ents.get? p with
    | none =>
      rw [hg] at h
      rcases ih ents ents' h0 h with ⟨h1, h2⟩
      refine ⟨h1, ?_⟩
      intro q hq
      rcases List.mem_cons.mp hq with hq | hq
      · rw [hq]; exact hg
      · exact h2 q hq
    | some ent =>
      rw [hg] at h
      simp only at h
      rw [filmIdsFor_error ents e0 h0 hid ent] at h
      simp only [bind, Except.bind] at h
      cases h

theorem personIdxs_some (ents : List Entity) (p : Nat) (hp : p ∈ personIdxs ents) :
    ents.get? p ≠ none := by
  unfold personIdxs at hp
  rcases List.mem_filter.mp hp with ⟨_, hpred⟩
  intro hg
  rw [hg] at hpred
  cases hpred

theorem personIdxs_tup (ents : List Entity) :
    personIdxs (ents.map fun e => { e with isTuple := true }) = personIdxs ents := by
  unfold personIdxs
  rw [List.length_map]
  apply List.filter_congr
  intro i _
  rw [List.get?_map]
  cases hg : ents.get? i with
  | none => rfl
  | some e => rfl

theorem map_linkOne_fix (o : Oracles) (l : List Entity)
    (h : ∀ e ∈ l, e.ids = none → e.tag = "CD") :
    l.map (linkOneEntity o) = l := by
  conv_rhs => rw [← List.map_id l]
  exact List.map_congr_left fun e he => linkOne_fix o e (h e he)

theorem map_tup_idem (l : List Entity) :
    ((l.map fun e => { e with isTuple := true }).map fun e => { e with isTuple := true }) =
      l.map fun e => { e with isTuple := true } := by
  rw [List.map_map]
  exact List.map_congr_left fun e _ => rfl

theorem not_all_ids_some (l : List Entity)
    (h : ¬ l.all (fun e => e.ids.isSome) = true) : ∃ e ∈ l, e.ids = none := by
  by_contra hno
  push_neg at hno
  apply h
  rw [List.all_eq_true]
  intro e he
  cases hie : e.ids with
  | none => exact absurd hie (hno e he)
  | some v => simp

theorem link_fixed_point (o : Oracles) (g g1 : Graph)
    (h : link_entities_in_graph o g = .ok g1) :
    link_entities_in_graph o g1 = .ok g1 := by
  unfold link_entities_in_graph at h
  by_cases hall : g.entities.all (fun e => e.ids.isSome) = true
  · rw [if_pos hall] at h
    injection h with h
    rw [← h]
    unfold link_entities_in_graph
    rw [if_pos hall]
  · rw [if_neg hall] at h
    simp only at h
    by_cases hall1 : g1.entities.all (fun e => e.ids.isSome) = true
    · unfold link_entities_in_graph
      rw [if_pos hall1]
    · rcases not_all_ids_some g1.entities hall1 with ⟨eN, heN, hidN⟩
      by_cases hm : hasVMarker o g = true
      · rw [if_pos hm] at h
        cases hp : personsLoop o (personIdxs (g.entities.map (linkOneEntity o)))
            (g.entities.map (linkOneEntity o)) with
        | error e => rw [hp] at h; cases h
        | ok ents2 =>
          rw [hp] at h
          simp only [Except.map] at h
          injection h with h
          -- pull the unlinked entity back through the tuple conversion
          have heN2 : eN ∈ ents2.map fun e => { e with isTuple := true } := by
            rw [← h] at heN
            simpa using heN
          rcases List.mem_map.mp heN2 with ⟨e2, he2, he2e⟩
          have hid2 : e2.ids = none := by
            have : eN.ids = e2.ids := by rw [← he2e]
            rw [← this]; exact hidN
          -- and through the persons loop back to the linked entities
          rcases personsLoop_none_src o _ _ _ hp e2 he2 hid2 with ⟨e1, he1, hid1⟩
          rcases personsLoop_stuck o e1 hid1 _ _ _ he1 hp with ⟨hents, hnone⟩
          have hempty : personIdxs (g.entities.map (linkOneEntity o)) = [] := by
            rcases hpi : personIdxs (g.entities.map (linkOneEntity o)) with _ | ⟨q, qs⟩
            · rfl
            · exact absurd (hnone q (by rw [hpi]; exact List.mem_cons_self q qs))
                (personIdxs_some _ q (by rw [hpi]; exact List.mem_cons_self q qs))
          have hg1 : g1 = { g with entities :=
              (g.entities.map (linkOneEntity o)).map fun e => { e with isTuple := true } } := by
            rw [← h, hents]
          unfold link_entities_in_graph
          rw [if_neg hall1]
          dsimp only
          have hmapfix : g1.entities.map (linkOneEntity o) = g1.entities := by
            apply map_linkOne_fix
            intro e he hide
            rw [hg1] at he
            rcases List.mem_map.mp he with ⟨ea, hea, heae⟩
            have : ea.ids = none := by
              have h2 : e.ids = ea.ids := by rw [← heae]
              rw [← h2]; exact hide
            have htag := ents1_none_tag o g.entities ea hea this
            rw [← heae]
            exact htag
          rw [if_pos (show hasVMarker o g1 = true by rw [hg1]; exact hm)]
          rw [hmapfix]
          rw [show personIdxs g1.entities = [] by
            rw [hg1]
            show personIdxs ((g.entities.map (linkOneEntity o)).map
              fun e => { e with isTuple := true }) = []
            rw [personIdxs_tup]
            exact hempty]
          show Except.map _ (Except.ok g1.entities) = Except.ok g1
          simp only [Except.map]
          have : (g1.entities.map fun e => { e with isTuple := true }) = g1.entities := by
            rw [hg1]
            exact map_tup_idem _
          rw [this]
      · rw [if_neg hm] at h
        simp only [Except.map] at h
        injection h with h
        have hg1 : g1 = { g with entities :=
            (g.entities.map (linkOneEntity o)).map fun e => { e with isTuple := true } } := by
          rw [← h]
        unfold link_entities_in_graph
        rw [if_neg hall1]
        dsimp only
        have hmapfix : g1.entities.map (linkOneEntity o) = g1.entities := by
          apply map_linkOne_fix
          intro e he hide
          rw [hg1] at he
          rcases List.mem_map.mp he with ⟨ea, hea, heae⟩
          have : ea.ids = none := by
            have h2 : e.ids = ea.ids := by rw [← heae]
            rw [← h2]; exact hide
          have htag := ents1_none_tag o g.entities ea hea this
          rw [← heae]
          exact htag
        rw [if_neg (show ¬ hasVMarker o g1 = true by rw [hg1]; exact hm)]
        rw [hmapfix]
        simp only [Except.map]
        have : (g1.entities.map fun e => { e with isTuple := true }) = g1.entities := by
          rw [hg1]
          exact map_tup_idem _
        rw [this]

/-- C9: `link_entities_in_graph` is idempotent: when every entity already
carries 3 elements (span, tag, candidate-id list) it is a no-op returning
the graph unchanged, and applying it twice equals applying it once on every
graph.  (The only graphs whose linked result still has a 2-element entity
are those with a numeral `CD` entity, and on those either no character-role
person exists — so the second pass recomputes the same value — or the
character-role film-id comprehension already raises an `IndexError` on the
first pass when it subscripts the 2-element entity, and the error
propagates identically.) -/
theorem link_entities_in_graph_idempotent (o : Oracles) (g : Graph) :
    (g.entities.all (fun e => e.ids.isSome) = true →
      link_entities_in_graph o g = .ok g) ∧
    (link_entities_in_graph o g).bind (link_entities_in_graph o) =
      link_entities_in_graph o g := by
  constructor
  · intro h
    simp [link_entities_in_graph, h]
  · cases hl : link_entities_in_graph o g with
    | error e => rfl
    | ok g1 =>
      show link_entities_in_graph o g1 = .ok g1
      exact link_fixed_point o g g1 hl

/-- An already-linked graph. -/
def gC9W : Graph := { entities := [⟨["Norway"], "LOCATION", some ["Q20"], true⟩] }

theorem link_entities_in_graph_idempotent_witness :
    (gC9W.entities.all (fun e => e.ids.isSome) = true) ∧
    link_entities_in_graph extTrivial gC9W = .ok gC9W ∧
    (link_entities_in_graph extTrivial gC9W).bind (link_entities_in_graph extTrivial) =
      link_entities_in_graph extTrivial gC9W := by
  have h := link_entities_in_graph_idempotent extTrivial gC9W
  exact ⟨by decide, h.1 (by decide), h.2⟩

/-- Python `add_canonical_labels_to_entities(g)`: label every edge that has a
(truthy) `rightkbID` but no `canonical_right` yet; an empty or missing label
leaves the edge unlabeled.  (In Python this updates the edges of `g` in
place and returns `g` itself; see the reference-level model below.) -/
def add_canonical_labels_to_entities (o : Oracles) (g : Graph) : Graph :=
  { g with
    edgeSet := g.edgeSet.map fun e =>
      match e.rightkbID with
      | some kbid =>
        if kbid ≠ "" ∧ e.canonical_right = none then
          match o.label_entity kbid with
          | some l => if l ≠ "" then { e with canonical_right := some l } else e
          | none => e
        else e
      | none => e }

/-- The `for answer_set in model_answers_labels` loop of the language
heuristic in `post_process_answers_given_graph`.  The loop appends to the
list it iterates over, hence the index-walk with fuel. -/
def languageLoop (o : Oracles) (edge : Edge) :
    Nat → Nat → List (List String) → Except String (List (List String))
  | 0, i, sets => if i < sets.length then .error "fuel" else .ok sets
  | fuel + 1, i, sets =>
    if h : i < sets.length then
      let s := sets.get ⟨i, h⟩
      let s1 :=
        if s.all (fun a => !(pyContains (pyLower a) "language")) then
          s ++ s.map (· ++ " language")
        else s
      let sets1 := sets.set i s1
      let sets2 :=
        if s1.contains "english" && !(edge.rightkbID.getD "" == "") then
          match o.demonym_query (edge.rightkbID.getD "") with
          | [] => sets1
          | d :: _ => sets1 ++ [[pyLower d ++ " english", pyLower d ++ " english language"]]
        else sets1
      languageLoop o edge fuel (i + 1) sets2
    else .ok sets

/-- Python `post_process_answers_given_graph(model_answers_labels, g)`. -/
def post_process_answers_given_graph (o : Oracles) (answers : List (List String))
    (g : Graph) : Except String (List (List String)) := do
  let relevant := g.edgeSet.filter fun e => pyInit (e.kbID.getD "") == "P37"
  let answers1 ←
    match relevant with
    | [] => Except.ok answers
    | e :: _ => languageLoop o e o.pp_fuel 0 answers
  let relevant2 := g.edgeSet.filter fun e =>
    ["P175", "P453", "P161"].contains (pyInit (e.kbID.getD ""))
  let answers2 :=
    if relevant2.isEmpty then answers1
    else
      answers1.map fun s =>
        s ++ s.filterMap fun a =>
          match pySplit a with
          | [] => none
          | t :: _ => some (pyStrip t)
  .ok answers2

/-- The `for i, s_g in enumerate(grounded_graphs)` loop of
`ground_one_with_gold`: whenever a denotation has more than 3 answers, a
variant graph tagged `filter: importance` is appended (to the list being
iterated) together with the importance-filtered denotation. -/
def importanceLoop (o : Oracles) :
    Nat → Nat → List (Graph × List String) → Except String (List (Graph × List String))
  | 0, i, items => if i < items.length then .error "fuel" else .ok items
  | fuel + 1, i, items =>
    if h : i < items.length then
      let gi := items.get ⟨i, h⟩
      if 3 < gi.2.length then
        importanceLoop o fuel (i + 1)
          (items ++
            [({ gi.1 with filter := some "importance" },
              o.filter_denotation_by_importance gi.2)])
      else importanceLoop o fuel (i + 1) items
    else .ok items

/-- Monadic map over `Except`, in left-to-right order. -/
def mapME {α β : Type} (f : α → Except String β) : List α → Except String (List β)
  | [] => .ok []
  | a :: as => do
    let b ← f a
    let bs ← mapME f as
    .ok (b :: bs)

theorem mapME_mem {α β : Type} (f : α → Except String β) (l : List α)
    (bs : List β) (h : mapME f l = .ok bs) : ∀ b ∈ bs, ∃ a ∈ l, f a = .ok b := by
  induction l generalizing bs with
  | nil =>
    cases h
    intro b hb
    cases hb
  | cons a as ih =>
    intro b hb
    simp only [mapME, bind, Except.bind] at h
    cases hfa : f a with
    | error e => rw [hfa] at h; cases h
    | ok b0 =>
      rw [hfa] at h
      cases hrest : mapME f as with
      | error e => rw [hrest] at h; cases h
      | ok bs0 =>
        rw [hrest] at h
        cases h
        rcases List.mem_cons.mp hb with hb0 | hbs
        · exact ⟨a, List.mem_cons_self a as, by rw [hfa, hb0]⟩
        · rcases ih bs0 hrest b hbs with ⟨a2, ha2, hfa2⟩
          exact ⟨a2, List.mem_cons_of_mem a ha2, hfa2⟩

/-- The grounded graphs of `ground_one_with_gold` paired with their raw
denotations, after the importance-variant loop. -/
def ground_one_items (o : Oracles) (s_g : Graph) :
    Except String (List (Graph × List String)) :=
  let grounded := (find_groundings o s_g).map (apply_grounding s_g)
  importanceLoop o o.importance_fuel 0
    (grounded.map fun g => (g, o.query_graph_denotations g))

/-- The per-candidate post-processing of `ground_one_with_gold`: label the
denotation (or map raw ids, per configuration), post-process the answer sets
given the graph, and evaluate against the gold answers. -/
def ground_one_scored (o : Oracles) (gold : List String)
    (gi : Graph × List String) :
    Except String (Graph × List (List String) × EvalScore) :=
  match post_process_answers_given_graph o
      ((if o.label_results_flag then o.label_query_results else o.map_query_results) gi.2)
      gi.1 with
  | .error e => .error e
  | .ok r => .ok (gi.1, r, o.retrieval_prec_rec_f1 gold r)

/-- Every grounded candidate of `ground_one_with_gold` with its final answer
sets and its evaluation triple. -/
def ground_one_final (o : Oracles) (s_g : Graph) (gold : List String) :
    Except String (List (Graph × List (List String) × EvalScore)) := do
  let items ← ground_one_items o s_g
  mapME (ground_one_scored o gold) items

/-- Python `ground_one_with_gold(s_g, gold_answers, min_fscore)`: the chosen list
keeps candidates whose F1 strictly exceeds `min_fscore` with their real
evaluation triple and answer sets; the rejected list keeps candidates whose
F1 is below 0.01 with a zero triple and the answer-set count. -/
def ground_one_with_gold (o : Oracles) (s_g : Graph) (gold : List String)
    (min_fscore : ℚ) : Except String (List Cand × List NCand) := do
  let fin ← ground_one_final o s_g gold
  .ok
    (fin.filterMap fun x =>
      if min_fscore < x.2.2.f1 then some (x.1, x.2.2, x.2.1) else none,
     fin.filterMap fun x =>
      if x.2.2.f1 < q001 then some (x.1, (⟨0, 0, 0⟩ : EvalScore), x.2.1.length)
      else none)

theorem ground_one_scored_shape (o : Oracles) (gold : List String)
    (gi : Graph × List String) (b : Graph × List (List String) × EvalScore)
    (h : ground_one_scored o gold gi = .ok b) :
    b.2.2 = o.retrieval_prec_rec_f1 gold b.2.1 := by
  unfold ground_one_scored at h
  cases hp : post_process_answers_given_graph o
      ((if o.label_results_flag then o.label_query_results else o.map_query_results) gi.2)
      gi.1 with
  | error e => rw [hp] at h; cases h
  | ok r => rw [hp] at h; cases h; rfl

theorem ground_one_with_gold_eq (o : Oracles) (s_g : Graph) (gold : List String)
    (min_fscore : ℚ) (fin : List (Graph × List (List String) × EvalScore))
    (hfin : ground_one_final o s_g gold = .ok fin) :
    ground_one_with_gold o s_g gold min_fscore =
      .ok
        (fin.filterMap fun x =>
          if min_fscore < x.2.2.f1 then some (x.1, x.2.2, x.2.1) else none,
         fin.filterMap fun x =>
          if x.2.2.f1 < 1 / 100 then some (x.1, (⟨0, 0, 0⟩ : EvalScore), x.2.1.length)
          else none) := by
  simp only [ground_one_with_gold, bind, Except.bind, hfin, q001_eq]

/-- C5: a grounded candidate of `ground_one_with_gold` is placed in the
chosen list iff its F1 strictly exceeds the caller-supplied minimum, and in
the rejected list iff its F1 is below 0.01; consequently a candidate whose
F1 lies in the band `[0.01, min]` is placed in neither list. -/
theorem ground_one_with_gold_thresholds (o : Oracles) (s_g : Graph)
    (gold : List String) (min_fscore : ℚ)
    (fin : List (Graph × List (List String) × EvalScore))
    (hfin : ground_one_final o s_g gold = .ok fin)
    (chosen : List Cand) (ncs : List NCand)
    (hres : ground_one_with_gold o s_g gold min_fscore = .ok (chosen, ncs)) :
    (∀ x ∈ chosen, min_fscore < x.2.1.f1) ∧
    (∀ i (h : i < fin.length), min_fscore < (fin.get ⟨i, h⟩).2.2.f1 →
      ((fin.get ⟨i, h⟩).1, (fin.get ⟨i, h⟩).2.2, (fin.get ⟨i, h⟩).2.1) ∈ chosen) ∧
    (∀ i (h : i < fin.length), (fin.get ⟨i, h⟩).2.2.f1 < 1 / 100 →
      ((fin.get ⟨i, h⟩).1, (⟨0, 0, 0⟩ : EvalScore), (fin.get ⟨i, h⟩).2.1.length) ∈ ncs) ∧
    (∀ y ∈ ncs, ∃ x ∈ fin, x.2.2.f1 < 1 / 100 ∧
      y = (x.1, (⟨0, 0, 0⟩ : EvalScore), x.2.1.length)) := by
  rw [ground_one_with_gold_eq o s_g gold min_fscore fin hfin] at hres
  injection hres with hres
  injection hres with hchosen hncs
  subst hchosen
  subst hncs
  refine ⟨?_, ?_, ?_, ?_⟩
  · intro x hx
    rcases List.mem_filterMap.mp hx with ⟨a, _, hfa⟩
    by_cases hc : min_fscore < a.2.2.f1
    · rw [if_pos hc] at hfa
      cases hfa
      exact hc
    · rw [if_neg hc] at hfa
      cases hfa
  · intro i h hc
    exact List.mem_filterMap.mpr
      ⟨fin.get ⟨i, h⟩, List.get_mem fin i h, by rw [if_pos hc]⟩
  · intro i h hc
    exact List.mem_filterMap.mpr
      ⟨fin.get ⟨i, h⟩, List.get_mem fin i h, by rw [if_pos hc]⟩
  · intro y hy
    rcases List.mem_filterMap.mp hy with ⟨a, ha, hfa⟩
    by_cases hc : a.2.2.f1 < 1 / 100
    · rw [if_pos hc] at hfa
      exact ⟨a, ha, hc, (Option.some.inj hfa).symm⟩
    · rw [if_neg hc] at hfa
      cases hfa

theorem ground_one_final_mem (o : Oracles) (s_g : Graph) (gold : List String)
    (fin : List (Graph × List (List String) × EvalScore))
    (hfin : ground_one_final o s_g gold = .ok fin) :
    ∀ x ∈ fin, x.2.2 = o.retrieval_prec_rec_f1 gold x.2.1 := by
  unfold ground_one_final at hfin
  simp only [bind, Except.bind] at hfin
  cases hi : ground_one_items o s_g with
  | error e => rw [hi] at hfin; cases hfin
  | ok items =>
    rw [hi] at hfin
    intro x hx
    rcases mapME_mem _ _ _ hfin x hx with ⟨a, _, ha⟩
    exact ground_one_scored_shape o gold a x ha

/-- C10: every element of the rejected list of `ground_one_with_gold`
carries the fixed triple `(0.0, 0.0, 0.0)` and, as its third component, the
number of retrieved answer sets of some grounded candidate; every element of
the chosen list carries a grounded candidate together with its actual answer
sets and its real evaluation triple. -/
theorem ground_one_with_gold_negative_payload (o : Oracles) (s_g : Graph)
    (gold : List String) (min_fscore : ℚ)
    (fin : List (Graph × List (List String) × EvalScore))
    (hfin : ground_one_final o s_g gold = .ok fin)
    (chosen : List Cand) (ncs : List NCand)
    (hres : ground_one_with_gold o s_g gold min_fscore = .ok (chosen, ncs)) :
    (∀ y ∈ ncs, y.2.1 = (⟨0, 0, 0⟩ : EvalScore) ∧
      ∃ x ∈ fin, y.1 = x.1 ∧ y.2.2 = x.2.1.length) ∧
    (∀ c ∈ chosen, ∃ x ∈ fin, c = (x.1, x.2.2, x.2.1)) ∧
    (∀ x ∈ fin, x.2.2 = o.retrieval_prec_rec_f1 gold x.2.1) := by
  rw [ground_one_with_gold_eq o s_g gold min_fscore fin hfin] at hres
  injection hres with hres
  injection hres with hchosen hncs
  subst hchosen
  subst hncs
  refine ⟨?_, ?_, ground_one_final_mem o s_g gold fin hfin⟩
  · intro y hy
    rcases List.mem_filterMap.mp hy with ⟨a, ha, hfa⟩
    by_cases hc : a.2.2.f1 < 1 / 100
    · rw [if_pos hc] at hfa
      cases hfa
      exact ⟨rfl, a, ha, rfl, rfl⟩
    · rw [if_neg hc] at hfa
      cases hfa
  · intro c hc
    rcases List.mem_filterMap.mp hc with ⟨a, ha, hfa⟩
    by_cases hcc : min_fscore < a.2.2.f1
    · rw [if_pos hcc] at hfa
      cases hfa
      exact ⟨a, ha, rfl⟩
    · rw [if_neg hcc] at hfa
      cases hfa

/-- A one-free-edge skeleton for exercising the gold-guided scorer. -/
def skC5 : Graph := { edgeSet := [{}] }

/-- Oracles for the scorer witnesses: two groundings, one of which denotes
the gold answer. -/
def oC5 : Oracles :=
  { extTrivial with
    query_graph_groundings := fun _ => [[("r0d", "P1v")], [("r0d", "P2v")]]
    query_graph_denotations := fun g =>
      if (g.edgeSet.head?.map fun e => e.kbID) = some (some "P1v") then ["A"] else ["B"]
    label_query_results := fun ans => ans.map fun x => [x]
    retrieval_prec_rec_f1 := fun _ r => if r == [["A"]] then ⟨1, 1, 1⟩ else ⟨0, 0, 0⟩ }

/-- The grounded candidate carrying `P1v`. -/
def g1C5 : Graph := { edgeSet := [{ type := some "direct", kbID := some "P1v" }] }

/-- The grounded candidate carrying `P2v`. -/
def g2C5 : Graph := { edgeSet := [{ type := some "direct", kbID := some "P2v" }] }

/-- The scored candidates produced by `oC5` on `skC5`. -/
def finC5 : List (Graph × List (List String) × EvalScore) :=
  [(g1C5, [["A"]], ⟨1, 1, 1⟩), (g2C5, [["B"]], ⟨0, 0, 0⟩)]

instance : DecidableEq (List Cand × List NCand) := instDecidableEqProd

theorem ground_one_with_gold_thresholds_witness :
    ground_one_final oC5 skC5 ["a"] = .ok finC5 ∧
    ground_one_with_gold oC5 skC5 ["a"] 0 =
      .ok ([(g1C5, ⟨1, 1, 1⟩, [["A"]])], [(g2C5, ⟨0, 0, 0⟩, 1)]) ∧
    (g1C5, (⟨1, 1, 1⟩ : EvalScore), [["A"]]) ∈ [(g1C5, (⟨1, 1, 1⟩ : EvalScore), [["A"]])] := by
  have hfin : ground_one_final oC5 skC5 ["a"] = .ok finC5 := by decide
  have hres : ground_one_with_gold oC5 skC5 ["a"] 0 =
      .ok ([(g1C5, ⟨1, 1, 1⟩, [["A"]])], [(g2C5, ⟨0, 0, 0⟩, 1)]) := by decide
  have h := ground_one_with_gold_thresholds oC5 skC5 ["a"] 0 finC5 hfin
    [(g1C5, ⟨1, 1, 1⟩, [["A"]])] [(g2C5, ⟨0, 0, 0⟩, 1)] hres
  exact ⟨hfin, hres, h.2.1 0 (by decide) (by decide)⟩

theorem ground_one_with_gold_negative_payload_witness :
    ground_one_final oC5 skC5 ["a"] = .ok finC5 ∧
    ((⟨0, 0, 0⟩ : EvalScore) = (⟨0, 0, 0⟩ : EvalScore) ∧
      ∃ x ∈ finC5, g2C5 = x.1 ∧ 1 = x.2.1.length) := by
  have hfin : ground_one_final oC5 skC5 ["a"] = .ok finC5 := by decide
  have hres : ground_one_with_gold oC5 skC5 ["a"] 0 =
      .ok ([(g1C5, ⟨1, 1, 1⟩, [["A"]])], [(g2C5, ⟨0, 0, 0⟩, 1)]) := by decide
  have h := ground_one_with_gold_negative_payload oC5 skC5 ["a"] 0 finC5 hfin
    [(g1C5, ⟨1, 1, 1⟩, [["A"]])] [(g2C5, ⟨0, 0, 0⟩, 1)] hres
  exact ⟨hfin, h.1 (g2C5, ⟨0, 0, 0⟩, 1) (by decide)⟩

/-- Descending order on gold-guided candidates: `b`'s f-score is at most
`a`'s (the comparison behind `sorted(key=lambda x: x[1][2], reverse=True)`). -/
def candGE (a b : Cand) : Prop := f1OfCand b ≤ f1OfCand a

instance : DecidableRel candGE := fun a b =>
  inferInstanceAs (Decidable (f1OfCand b ≤ f1OfCand a))

instance : IsTotal Cand candGE := ⟨fun a b => le_total (f1OfCand b) (f1OfCand a)⟩

instance : IsTrans Cand candGE := ⟨fun _ _ _ h1 h2 => le_trans h2 h1⟩

/-- Python `sorted(l, key=lambda x: x[1][2], reverse=True)`: a stable sort,
descending by f-score. -/
def pySortCand (l : List Cand) : List Cand := l.insertionSort candGE

/-- The `while input_graphs and len(all_chosen_graphs) == 0` loop of
`ground_with_gold`: try the skeletons in order, accumulate the rejected
candidates, and stop at the first skeleton yielding any chosen candidate. -/
def ground_with_gold_loop (o : Oracles) (gold : List String) (min_fscore : ℚ) :
    List Graph → Except String (List Cand × List NCand)
  | [] => .ok ([], [])
  | s_g :: rest => do
    let p ← ground_one_with_gold o s_g gold min_fscore
    if p.1.isEmpty then do
      let p2 ← ground_with_gold_loop o gold min_fscore rest
      .ok (p2.1, p.2 ++ p2.2)
    else .ok p

/-- Python `ground_with_gold(input_graphs, gold_answers, min_fscore)`: run the loop,
sort the chosen candidates by f-score descending, and cap them at 3. -/
def ground_with_gold (o : Oracles) (input_graphs : List Graph)
    (gold : List String) (min_fscore : ℚ) : Except String (List Cand × List NCand) := do
  let p ← ground_with_gold_loop o gold min_fscore input_graphs
  let c := pySortCand p.1
  .ok (if c.length > 3 then c.take 3 else c, p.2)

theorem ground_with_gold_loop_first (o : Oracles) (gold : List String)
    (min_fscore : ℚ) :
    ∀ (gs : List Graph) (c : List Cand) (nc : List NCand),
      ground_with_gold_loop o gold min_fscore gs = .ok (c, nc) → c ≠ [] →
      ∃ i, ∃ hi : i < gs.length,
        (∀ j (hj : j < i), ∃ ncj,
          ground_one_with_gold o (gs.get ⟨j, Nat.lt_trans hj hi⟩) gold min_fscore =
            .ok ([], ncj)) ∧
        ∃ nci, ground_one_with_gold o (gs.get ⟨i, hi⟩) gold min_fscore = .ok (c, nci) := by
  intro gs
  induction gs with
  | nil =>
    intro c nc h hne
    simp only [ground_with_gold_loop] at h
    cases h
    exact absurd rfl hne
  | cons g rest ih =>
    intro c nc h hne
    simp only [ground_with_gold_loop, bind, Except.bind] at h
    cases h1 : ground_one_with_gold o g gold min_fscore with
    | error e => rw [h1] at h; cases h
    | ok p =>
      rw [h1] at h
      obtain ⟨c1, nc1⟩ := p
      by_cases hc1 : c1.isEmpty
      · simp only [hc1, if_true] at h
        cases h2 : ground_with_gold_loop o gold min_fscore rest with
        | error e => rw [h2] at h; cases h
        | ok p2 =>
          rw [h2] at h
          obtain ⟨c2, nc2⟩ := p2
          simp only at h
          cases h
          rcases ih c nc2 h2 hne with ⟨i, hi, hpre, nci, hfound⟩
          refine ⟨i + 1, Nat.succ_lt_succ hi, ?_, nci, hfound⟩
          intro j hj
          cases j with
          | zero =>
            refine ⟨nc1, ?_⟩
            show ground_one_with_gold o g gold min_fscore = Except.ok ([], nc1)
            rw [h1]
            rw [List.isEmpty_iff] at hc1
            rw [hc1]
          | succ j2 => exact hpre j2 (Nat.lt_of_succ_lt_succ hj)
      · simp only [hc1, if_false] at h
        injection h with h
        injection h with hcc hnn
        subst hcc
        exact ⟨0, Nat.succ_pos _, fun j hj => absurd hj (Nat.not_lt_zero j),
               nc1, h1⟩

/-- A model-guided candidate: `(graph, model score)`. -/
abbrev MCand := Graph × ℚ

/-- Descending order on model-guided candidates. -/
def mcandGE (a b : MCand) : Prop := b.2 ≤ a.2

instance : DecidableRel mcandGE := fun a b => inferInstanceAs (Decidable (b.2 ≤ a.2))

instance : IsTotal MCand mcandGE := ⟨fun a b => le_total b.2 a.2⟩

instance : IsTrans MCand mcandGE := ⟨fun _ _ _ h1 h2 => le_trans h2 h1⟩

/-- Python `sorted(l, key=lambda x: x[1], reverse=True)` on model candidates. -/
def pySortModel (l : List MCand) : List MCand := l.insertionSort mcandGE

/-- Python `str(x)` of a possibly missing string value (`"{}".format(None)`). -/
def pyOptStr : Option String → String
  | some s => s
  | none => "None"

/-- Python `str(x)` of a `hopUp`/`hopDown` entry: absent keys and keys holding
`None` both print as `None`. -/
def pyOptOptStr : Option (Option String) → String
  | some (some s) => s
  | some none => "None"
  | none => "None"

/-- One edge of the `use.whitelist` filter of `ground_with_model`:
`e.get('type') in {'time', 'v-structure'} or e.get("kbID")[:-1] in
property_whitelist` (a missing `kbID` raises a `TypeError` on `None[:-1]`). -/
def whitelistKeepEdge (o : Oracles) (e : Edge) : Except String Bool :=
  if e.type = some "time" ∨ e.type = some "v-structure" then .ok true
  else
    match e.kbID with
    | none => .error "TypeError"
    | some k => .ok (o.property_whitelist.contains (pyInit k))

/-- Python `all(...)` of `whitelistKeepEdge` over the edges of a graph. -/
def whitelistKeepGraph (o : Oracles) : List Edge → Except String Bool
  | [] => .ok true
  | e :: es => do
    let b ← whitelistKeepEdge o e
    if b then whitelistKeepGraph o es else .ok false

/-- The (optional) whitelist filter of `ground_with_model`. -/
def whitelistFilterM (o : Oracles) : List Graph → Except String (List Graph)
  | [] => .ok []
  | g :: gs => do
    let b ← whitelistKeepGraph o g.edgeSet
    let rest ← whitelistFilterM o gs
    .ok (if b then g :: rest else rest)

/-- The `direct_relations` set comprehension of `ground_with_model`: the
base ids of first-order last edges (`kbID[:-1]` for last edges of type
direct/reverse/v-structure whose `kbID` does not end in a qualifier
letter). -/
def directRelationsM (o : Oracles) : List Graph → Except String (List String)
  | [] => .ok []
  | g :: gs =>
    let e := o.get_graph_last_edge g
    if e.type = some "direct" ∨ e.type = some "reverse" ∨ e.type = some "v-structure" then do
      let c ← pyLastChar (e.kbID.getD " ")
      let rest ← directRelationsM o gs
      if c = 'q' ∨ c = 'r' then .ok rest else .ok (pyInit (e.kbID.getD "") :: rest)
    else directRelationsM o gs

/-- The qualifier filter of `ground_with_model`: keep a graph unless its
last edge's `kbID` ends in `q`/`r` and its base id already appears as a
first-order relation. -/
def filterQualifiersM (o : Oracles) (dr : List String) :
    List Graph → Except String (List Graph)
  | [] => .ok []
  | g :: gs => do
    let e := o.get_graph_last_edge g
    let c ← pyLastChar (e.kbID.getD " ")
    let keep :=
      if ¬(c = 'q' ∨ c = 'r') then true
      else !(dr.contains (pyInit (e.kbID.getD "")))
    let rest ← filterQualifiersM o dr gs
    .ok (if keep then g :: rest else rest)

/-- The `first_order_relations` set comprehension of `ground_with_model`. -/
def firstOrderRelations (o : Oracles) (gs : List Graph) : List String :=
  gs.filterMap fun g =>
    let e := o.get_graph_last_edge g
    if e.type = some "direct" ∨ e.type = some "reverse" ∨ e.type = some "v-structure" then
      some (pyOptStr e.kbID ++ "-" ++ pyOptStr e.type)
    else none

/-- The hop filter of `ground_with_model`: drop an auxiliary-hop grounding
whose hop relation combined with its own type duplicates a first-order
relation. -/
def filterHops (o : Oracles) (fo : List String) (gs : List Graph) : List Graph :=
  gs.filter fun g =>
    let e := o.get_graph_last_edge g
    (!e.hopUp.isSome && !e.hopDown.isSome) ||
    (!(fo.contains (pyOptOptStr e.hopUp ++ "-" ++ pyOptStr e.type)) &&
     !(fo.contains (pyOptOptStr e.hopDown ++ "-" ++ pyOptStr e.type)))

/-- The grounded-and-filtered candidate graphs of `ground_with_model`
(everything before the scorer is consulted). -/
def model_grounded_graphs (o : Oracles) (input_graphs : List Graph) :
    Except String (List Graph) := do
  let grounded :=
    input_graphs.flatMap fun s_g => (find_groundings o s_g).map (apply_grounding s_g)
  let grounded ← if o.use_whitelist_flag then whitelistFilterM o grounded else pure grounded
  let grounded := grounded.map o.add_string_representations
  let grounded := if o.replace_entities_flag then grounded.map o.replace_entities else grounded
  let dr ← directRelationsM o grounded
  let grounded ← filterQualifiersM o dr grounded
  .ok (filterHops o (firstOrderRelations o grounded) grounded)

/-- Python `ground_with_model(input_graphs, qa_model, min_score, beam_size)`: if no
grounded candidate survives, return the empty list without consulting the
scorer; otherwise require exactly one score per graph (`assert`), keep the
scores above `min_score`, sort descending, and cap at the beam width. -/
def ground_with_model (o : Oracles) (input_graphs : List Graph) (min_score : ℚ)
    (beam_size : Nat) : Except String (List MCand) := do
  let grounded ← model_grounded_graphs o input_graphs
  if grounded.length = 0 then .ok []
  else
    let model_scores := o.scores_for_instance grounded
    if model_scores.length = grounded.length then
      let all_chosen := (grounded.zip model_scores).filter fun x => min_score < x.2
      let c := pySortModel all_chosen
      .ok (if c.length > beam_size then c.take beam_size else c)
    else .error "AssertionError"

theorem whitelistKeepGraph_scorer (o : Oracles) (f : List Graph → List ℚ) :
    ∀ es, whitelistKeepGraph { o with scores_for_instance := f } es =
      whitelistKeepGraph o es
  | [] => rfl
  | e :: es => by
    simp only [whitelistKeepGraph, bind, Except.bind]
    have he : whitelistKeepEdge { o with scores_for_instance := f } e =
        whitelistKeepEdge o e := rfl
    rw [he]
    cases whitelistKeepEdge o e with
    | error err => rfl
    | ok b =>
      cases b with
      | false => rfl
      | true => simpa using whitelistKeepGraph_scorer o f es

theorem whitelistFilterM_scorer (o : Oracles) (f : List Graph → List ℚ) :
    ∀ gs, whitelistFilterM { o with scores_for_instance := f } gs =
      whitelistFilterM o gs
  | [] => rfl
  | g :: gs => by
    simp only [whitelistFilterM, bind, Except.bind]
    rw [whitelistKeepGraph_scorer o f g.edgeSet]
    cases whitelistKeepGraph o g.edgeSet with
    | error err => rfl
    | ok b => rw [whitelistFilterM_scorer o f gs]

theorem directRelationsM_scorer (o : Oracles) (f : List Graph → List ℚ) :
    ∀ gs, directRelationsM { o with scores_for_instance := f } gs =
      directRelationsM o gs
  | [] => rfl
  | g :: gs => by
    simp only [directRelationsM, bind, Except.bind]
    rw [directRelationsM_scorer o f gs]

theorem filterQualifiersM_scorer (o : Oracles) (f : List Graph → List ℚ)
    (dr : List String) :
    ∀ gs, filterQualifiersM { o with scores_for_instance := f } dr gs =
      filterQualifiersM o dr gs
  | [] => rfl
  | g :: gs => by
    simp only [filterQualifiersM, bind, Except.bind]
    rw [filterQualifiersM_scorer o f dr gs]

theorem find_groundings_scorer (o : Oracles) (f : List Graph → List ℚ) (g : Graph) :
    find_groundings { o with scores_for_instance := f } g = find_groundings o g := rfl

theorem firstOrderRelations_scorer (o : Oracles) (f : List Graph → List ℚ)
    (gs : List Graph) :
    firstOrderRelations { o with scores_for_instance := f } gs =
      firstOrderRelations o gs := rfl

theorem filterHops_scorer (o : Oracles) (f : List Graph → List ℚ)
    (fo : List String) (gs : List Graph) :
    filterHops { o with scores_for_instance := f } fo gs = filterHops o fo gs := rfl

theorem oracles_scorer_flag_wl (o : Oracles) (f : List Graph → List ℚ) :
    ({ o with scores_for_instance := f } : Oracles).use_whitelist_flag =
      o.use_whitelist_flag := rfl

theorem oracles_scorer_flag_re (o : Oracles) (f : List Graph → List ℚ) :
    ({ o with scores_for_instance := f } : Oracles).replace_entities_flag =
      o.replace_entities_flag := rfl

theorem oracles_scorer_asr (o : Oracles) (f : List Graph → List ℚ) :
    ({ o with scores_for_instance := f } : Oracles).add_string_representations =
      o.add_string_representations := rfl

theorem oracles_scorer_re (o : Oracles) (f : List Graph → List ℚ) :
    ({ o with scores_for_instance := f } : Oracles).replace_entities =
      o.replace_entities := rfl

theorem model_grounded_scorer_irrel (o : Oracles) (f : List Graph → List ℚ)
    (inputs : List Graph) :
    model_grounded_graphs { o with scores_for_instance := f } inputs =
      model_grounded_graphs o inputs := by
  simp only [model_grounded_graphs, bind, Except.bind, find_groundings_scorer,
    whitelistFilterM_scorer, directRelationsM_scorer, filterQualifiersM_scorer,
    firstOrderRelations_scorer, filterHops_scorer, oracles_scorer_flag_wl,
    oracles_scorer_flag_re, oracles_scorer_asr, oracles_scorer_re]

/-- C8: if the grounded candidate list of `ground_with_model` is empty, the
call returns the empty list as a normal outcome, for any scorer (the scorer
is not consulted); if it is non-empty and the scorer returns a list whose
length differs from the number of graphs, the call fails with the
`assert`'s `AssertionError` instead of returning misaligned scores. -/
theorem ground_with_model_contract (o : Oracles) (input_graphs : List Graph)
    (min_score : ℚ) (beam_size : Nat) :
    (model_grounded_graphs o input_graphs = .ok [] →
      ∀ f, ground_with_model { o with scores_for_instance := f } input_graphs
        min_score beam_size = .ok []) ∧
    (∀ gs, model_grounded_graphs o input_graphs = .ok gs → gs ≠ [] →
      (o.scores_for_instance gs).length ≠ gs.length →
      ground_with_model o input_graphs min_score beam_size = .error "AssertionError") := by
  constructor
  · intro h f
    unfold ground_with_model
    rw [model_grounded_scorer_irrel o f input_graphs, h]
    simp [bind, Except.bind]
  · intro gs hg hne hlen
    unfold ground_with_model
    rw [hg]
    simp only [bind, Except.bind]
    rw [if_neg (fun hh => hne (List.length_eq_zero.mp hh))]
    rw [if_neg hlen]

/-- The oracle `oC5` with a broken scorer that returns no scores. -/
def oC8 : Oracles := { oC5 with scores_for_instance := fun _ => [] }

theorem ground_with_model_contract_witness :
    ground_with_model { extTrivial with scores_for_instance := fun _ => [1] } [] 0 10 =
      .ok [] ∧
    ground_with_model oC8 [skC5] 0 10 = .error "AssertionError" := by
  constructor
  · exact (ground_with_model_contract extTrivial [] 0 10).1 (by decide) (fun _ => [1])
  · exact (ground_with_model_contract oC8 [skC5] 0 10).2 [g1C5, g2C5]
      (by decide) (by decide) (by decide)

/-- C4 (amended): `ground_with_gold` processes its skeletons in order and
stops at the first skeleton yielding a chosen candidate; its chosen list
never exceeds length 3 and is sorted descending (non-increasing) by F1, and
the chosen list of `ground_with_model` never exceeds the beam width and is
sorted descending (non-increasing) by model score.  (Ties make the orders
non-strict, see the counterexample.) -/
theorem ground_with_beam_caps (o : Oracles) (gold : List String) (min_fscore : ℚ) :
    (∀ gs chosen ncs,
      ground_with_gold o gs gold min_fscore = .ok (chosen, ncs) →
      chosen.length ≤ 3 ∧ chosen.Sorted candGE ∧
      (chosen ≠ [] → ∃ i, ∃ hi : i < gs.length,
        (∀ j (hj : j < i), ∃ ncj,
          ground_one_with_gold o (gs.get ⟨j, Nat.lt_trans hj hi⟩) gold min_fscore =
            .ok ([], ncj)) ∧
        ∃ ci nci,
          ground_one_with_gold o (gs.get ⟨i, hi⟩) gold min_fscore = .ok (ci, nci) ∧
          ci ≠ [] ∧
          chosen = (if (pySortCand ci).length > 3 then (pySortCand ci).take 3
                    else pySortCand ci))) ∧
    (∀ inputs min_score beam_size chosen,
      ground_with_model o inputs min_score beam_size = .ok chosen →
      chosen.length ≤ beam_size ∧ chosen.Sorted mcandGE) := by
  constructor
  · intro gs chosen ncs h
    unfold ground_with_gold at h
    simp only [bind, Except.bind] at h
    cases hl : ground_with_gold_loop o gold min_fscore gs with
    | error e => rw [hl] at h; cases h
    | ok p =>
      rw [hl] at h
      obtain ⟨c, nc⟩ := p
      simp only at h
      injection h with h
      injection h with hch hnc
      subst hch
      refine ⟨?_, ?_, ?_⟩
      · split_ifs with hlen
        · simp [List.length_take_le]
        · omega
      · have hs : (pySortCand c).Sorted candGE := List.sorted_insertionSort candGE c
        split_ifs with hlen
        · exact List.Pairwise.sublist (List.take_sublist 3 (pySortCand c)) hs
        · exact hs
      · intro hne
        have hcne : c ≠ [] := by
          intro hc
          subst hc
          simp [pySortCand, List.insertionSort] at hne
        rcases ground_with_gold_loop_first o gold min_fscore gs c nc hl hcne with
          ⟨i, hi, hpre, nci, hfound⟩
        exact ⟨i, hi, hpre, c, nci, hfound, hcne, rfl⟩
  · intro inputs min_score beam_size chosen h
    unfold ground_with_model at h
    simp only [bind, Except.bind] at h
    cases hg : model_grounded_graphs o inputs with
    | error e => rw [hg] at h; cases h
    | ok gs =>
      rw [hg] at h
      simp only at h
      by_cases h0 : gs.length = 0
      · rw [if_pos h0] at h
        injection h with h
        subst h
        exact ⟨Nat.zero_le _, List.sorted_nil⟩
      · rw [if_neg h0] at h
        by_cases hlen : (o.scores_for_instance gs).length = gs.length
        · rw [if_pos hlen] at h
          injection h with h
          subst h
          constructor
          · split_ifs with hb
            · simp [List.length_take_le]
            · omega
          · have hs := List.sorted_insertionSort mcandGE
              ((gs.zip (o.scores_for_instance gs)).filter fun x => decide (min_score < x.2))
            split_ifs with hb
            · exact List.Pairwise.sublist (List.take_sublist beam_size _) hs
            · exact hs
        · rw [if_neg hlen] at h
          cases h

/-- The oracle `oC5` with an evaluation metric that gives every candidate
the same F1. -/
def oC4 : Oracles := { oC5 with retrieval_prec_rec_f1 := fun _ _ => ⟨1, 1, 1⟩ }

/-- C4 counterexample: the chosen list of `ground_with_gold` is not sorted
*strictly* descending by F1 — two groundings with equal F1 are both chosen
and tie. -/
theorem ground_with_gold_not_strictly_descending :
    ground_with_gold oC4 [skC5] ["a"] 0 =
      .ok ([(g1C5, ⟨1, 1, 1⟩, [["A"]]), (g2C5, ⟨1, 1, 1⟩, [["B"]])], []) ∧
    ¬ List.Chain' (fun a b : Cand => f1OfCand b < f1OfCand a)
        [(g1C5, ⟨1, 1, 1⟩, [["A"]]), (g2C5, ⟨1, 1, 1⟩, [["B"]])] := by
  constructor
  · decide
  · intro h
    have h2 := (List.chain'_cons.mp h).1
    exact absurd h2 (lt_irrefl (1 : ℚ))

/-- The oracle `oC5` with a scorer that returns one score per graph. -/
def oC8b : Oracles := { oC5 with scores_for_instance := fun gs => gs.map fun _ => (1 : ℚ) }

theorem ground_with_beam_caps_witness :
    ground_with_gold oC5 [skC5] ["a"] 0 =
      .ok ([(g1C5, ⟨1, 1, 1⟩, [["A"]])], [(g2C5, ⟨0, 0, 0⟩, 1)]) ∧
    ([(g1C5, (⟨1, 1, 1⟩ : EvalScore), [["A"]])] : List Cand).length ≤ 3 ∧
    ground_with_model oC8b [skC5] 0 10 = .ok [(g1C5, 1), (g2C5, 1)] ∧
    ([(g1C5, (1 : ℚ)), (g2C5, 1)] : List MCand).length ≤ 10 := by
  have hg : ground_with_gold oC5 [skC5] ["a"] 0 =
      .ok ([(g1C5, ⟨1, 1, 1⟩, [["A"]])], [(g2C5, ⟨0, 0, 0⟩, 1)]) := by decide
  have hm : ground_with_model oC8b [skC5] 0 10 = .ok [(g1C5, 1), (g2C5, 1)] := by decide
  exact ⟨hg, ((ground_with_beam_caps oC5 ["a"] 0).1 [skC5] _ _ hg).1, hm,
         ((ground_with_beam_caps oC8b ["a"] 0).2 [skC5] 0 10 _ hm).1⟩

/-- The state of the `generate_with_gold` search loop. -/
structure GoldState where
  pool : List Cand
  positives : List Cand
  negatives : List NCand
deriving DecidableEq, Repr

/-- Python `positive_graphs[-1][1][2] if len(positive_graphs) > 0 else 0.0`. -/
def lastPosF1 (st : GoldState) : ℚ :=
  match st.positives.getLast? with
  | some p => f1OfCand p
  | none => 0

/-- The f-score of the best accepted positive so far (0 when none). -/
def bestPosF1 (st : GoldState) : ℚ := (st.positives.map f1OfCand).foldr max 0

/-- The loop condition of `generate_with_gold`:
`pool and (positive_graphs[-1][1][2] if positive_graphs else 0.0) < 0.9`. -/
def goldGuard (st : GoldState) : Bool :=
  !st.pool.isEmpty && decide (lastPosF1 st < q09)

/-- The inner `while (not chosen_graphs or bonus_round) and suggested_graphs`
loop of `generate_with_gold`: ground each suggested skeleton (expanding it
when nothing was chosen), track the bonus round and the lowered master
f-score, and accumulate chosen/negative candidates. -/
def gold_inner (o : Oracles) (gold : List String) :
    ℚ → List Cand → List NCand → Bool → List Graph →
      Except String (List Cand × List NCand)
  | _, chosen, negs, _, [] => .ok (chosen, negs)
  | master, chosen, negs, bonus, s_g :: rest =>
    if chosen.isEmpty || bonus then do
      let p ← ground_with_gold o [s_g] gold master
      let chosen2 := chosen ++ p.1
      let negs2 := negs ++ p.2
      let res ←
        if chosen2.isEmpty then do
          let p2 ← ground_with_gold o (o.expand s_g) gold master
          pure (chosen2 ++ p2.1, negs2 ++ p2.2)
        else pure (chosen2, negs2)
      match res.1 with
      | [] => gold_inner o gold master res.1 res.2 false rest
      | c0 :: ctail =>
        let current_f1 := ctail.foldl (fun m x => max m (f1OfCand x)) (f1OfCand c0)
        if current_f1 < q005 then gold_inner o gold current_f1 res.1 res.2 true rest
        else gold_inner o gold master res.1 res.2 false rest
    else .ok (chosen, negs)

/-- One iteration of the `generate_with_gold` loop (assuming the pool is
non-empty): pop the front graph; if its own f-score is below 0.7, restrict,
label and run the inner grounding loop, then either extend and re-sort the
pool (something was chosen) or finalize the popped graph into the positives;
a popped graph with f-score at least 0.7 is finalized directly. -/
def gold_step (o : Oracles) (gold : List String) (st : GoldState) :
    Except String GoldState :=
  match st.pool with
  | [] => .ok st
  | g :: rest =>
    if f1OfCand g < q07 then do
      let restricted := (o.restrict g.1).map (add_canonical_labels_to_entities o)
      let p ← gold_inner o gold (f1OfCand g) [] [] false restricted
      if p.1.isEmpty then
        .ok ⟨rest, st.positives ++ [g], st.negatives ++ p.2⟩
      else
        .ok ⟨pySortCand (rest ++ p.1), st.positives, st.negatives ++ p.2⟩
    else .ok ⟨rest, st.positives ++ [g], st.negatives⟩

/-- The `while` loop of `generate_with_gold`, with fuel (the Python loop can
diverge for adversarial collaborators, e.g. an importance filter that never
shrinks a denotation). -/
def gold_loop (o : Oracles) (gold : List String) :
    Nat → GoldState → Except String GoldState
  | 0, st => if goldGuard st then .error "fuel" else .ok st
  | fuel + 1, st =>
    if goldGuard st then do
      let st2 ← gold_step o gold st
      gold_loop o gold fuel st2
    else .ok st

/-- Python `generate_with_gold(ungrounded_graph, gold_answers)`: link the entities,
run the search loop from the seeded pool, and return the positive graphs
followed by the negative ones. -/
def generate_with_gold (o : Oracles) (fuel : Nat) (ungrounded_graph : Graph)
    (gold : List String) : Except String (List (Cand ⊕ NCand)) := do
  let g ← link_entities_in_graph o ungrounded_graph
  let st ← gold_loop o gold fuel ⟨[(g, ⟨0, 0, 0⟩, [])], [], []⟩
  .ok (st.positives.map Sum.inl ++ st.negatives.map Sum.inr)

/-- The states the `generate_with_gold` loop can reach at its guard check:
the seeded initial state, and anything obtained from a reachable state by
one guarded iteration. -/
inductive GoldReachable (o : Oracles) (gold : List String) : GoldState → Prop
  | init (g : Graph) : GoldReachable o gold ⟨[(g, ⟨0, 0, 0⟩, [])], [], []⟩
  | step (st st' : GoldState) : GoldReachable o gold st → goldGuard st = true →
      gold_step o gold st = .ok st' → GoldReachable o gold st'

theorem gold_step_shape (o : Oracles) (gold : List String) (st st' : GoldState)
    (h : gold_step o gold st = .ok st') :
    (st' = st) ∨
    (∃ g rest, st.pool = g :: rest ∧ st'.positives = st.positives ++ [g] ∧
      st'.pool = rest) ∨
    (∃ g rest l, st.pool = g :: rest ∧ st'.positives = st.positives ∧
      st'.pool = pySortCand (rest ++ l)) := by
  unfold gold_step at h
  cases hp : st.pool with
  | nil =>
    rw [hp] at h
    injection h with h
    exact Or.inl h.symm
  | cons g rest =>
    rw [hp] at h
    simp only at h
    by_cases hm : f1OfCand g < q07
    · rw [if_pos hm] at h
      simp only [bind, Except.bind] at h
      cases hi : gold_inner o gold (f1OfCand g) [] [] false
          ((o.restrict g.1).map (add_canonical_labels_to_entities o)) with
      | error e => rw [hi] at h; cases h
      | ok p =>
        rw [hi] at h
        simp only at h
        by_cases hc : p.1.isEmpty
        · rw [if_pos hc] at h
          injection h with h
          subst h
          exact Or.inr (Or.inl ⟨g, rest, rfl, rfl, rfl⟩)
        · rw [if_neg hc] at h
          injection h with h
          subst h
          exact Or.inr (Or.inr ⟨g, rest, p.1, rfl, rfl, rfl⟩)
    · rw [if_neg hm] at h
      injection h with h
      subst h
      exact Or.inr (Or.inl ⟨g, rest, rfl, rfl, rfl⟩)

theorem foldr_max_lt (xs : List ℚ) (c : ℚ) (h0 : 0 < c) (h : ∀ x ∈ xs, x < c) :
    xs.foldr max 0 < c := by
  induction xs with
  | nil => simpa using h0
  | cons a t ih =>
    simp only [List.foldr_cons]
    exact max_lt (h a (List.mem_cons_self a t))
      (ih fun x hx => h x (List.mem_cons_of_mem a hx))

theorem le_foldr_max (xs : List ℚ) (x : ℚ) (hx : x ∈ xs) : x ≤ xs.foldr max 0 := by
  induction xs with
  | nil => cases hx
  | cons a t ih =>
    simp only [List.foldr_cons]
    rcases List.mem_cons.mp hx with h | h
    · rw [h]; exact le_max_left _ _
    · exact le_trans (ih h) (le_max_right _ _)

theorem all_pos_lt (st : GoldState) (hlast : lastPosF1 st < q09)
    (ih : ∀ p ∈ st.positives.dropLast, f1OfCand p < q09) :
    ∀ p ∈ st.positives, f1OfCand p < q09 := by
  intro p hp
  have hne : st.positives ≠ [] := List.ne_nil_of_mem hp
  have hdecomp := List.dropLast_append_getLast hne
  rw [← hdecomp] at hp
  rcases List.mem_append.mp hp with hp1 | hp2
  · exact ih p hp1
  · have hpe : p = st.positives.getLast hne := by simpa using hp2
    rw [hpe]
    have hl : lastPosF1 st = f1OfCand (st.positives.getLast hne) := by
      unfold lastPosF1
      rw [List.getLast?_eq_getLast st.positives hne]
    rw [← hl]
    exact hlast

theorem gold_positives_inv (o : Oracles) (gold : List String) (st : GoldState)
    (h : GoldReachable o gold st) :
    ∀ p ∈ st.positives.dropLast, f1OfCand p < q09 := by
  induction h with
  | init g => intro p hp; simp at hp
  | step st st' hr hguard hstep ih =>
    have hlast : lastPosF1 st < q09 :=
      of_decide_eq_true ((Bool.and_eq_true _ _).mp hguard).2
    rcases gold_step_shape o gold st st' hstep with heq | hca | hcb
    · rw [heq]; exact ih
    · rcases hca with ⟨g, rest, hpool, hpos, _⟩
      rw [hpos, List.dropLast_concat]
      exact all_pos_lt st hlast ih
    · rcases hcb with ⟨g, rest, l, hpool, hpos, _⟩
      rw [hpos]
      exact ih

theorem gold_guard_iff (o : Oracles) (gold : List String) (st : GoldState)
    (h : GoldReachable o gold st) :
    goldGuard st = true ↔ (st.pool ≠ [] ∧ bestPosF1 st < q09) := by
  have hinv := gold_positives_inv o gold st h
  unfold goldGuard
  rw [Bool.and_eq_true]
  constructor
  · rintro ⟨h1, h2⟩
    refine ⟨by simpa [List.isEmpty_iff] using h1, ?_⟩
    have hlast : lastPosF1 st < q09 := of_decide_eq_true h2
    unfold bestPosF1
    apply foldr_max_lt
    · decide
    · intro x hx
      rcases List.mem_map.mp hx with ⟨p, hp, hpx⟩
      rw [← hpx]
      exact all_pos_lt st hlast hinv p hp
  · rintro ⟨h1, h2⟩
    refine ⟨by simpa [List.isEmpty_iff] using h1, decide_eq_true ?_⟩
    unfold lastPosF1
    cases hl : st.positives.getLast? with
    | none => decide
    | some p =>
      have hmem : p ∈ st.positives.getLast? := by rw [Option.mem_def, hl]
      rcases List.mem_getLast?_eq_getLast hmem with ⟨hne2, hpe⟩
      have hp : p ∈ st.positives := by rw [hpe]; exact List.getLast_mem hne2
      calc f1OfCand p ≤ (st.positives.map f1OfCand).foldr max 0 :=
            le_foldr_max _ _ (List.mem_map.mpr ⟨p, hp, rfl⟩)
        _ < q09 := h2

/-- C1: at every reachable guard check, the gold-guided search executes
another iteration exactly when the pool is non-empty and the best accepted
positive's F1 is below 0.9 (on reachable states the code's
`positive_graphs[-1]` test coincides with the best positive, because a
positive with F1 at least 0.9 stops the loop at the very next check); in
particular, once the pool is empty the loop returns immediately for any
remaining fuel, even if no positive ever reached F1 0.9. -/
theorem generate_with_gold_guard (o : Oracles) (gold : List String)
    (st : GoldState) (h : GoldReachable o gold st) (fuel : Nat) :
    (gold_loop o gold (fuel + 1) st =
      if st.pool ≠ [] ∧ bestPosF1 st < 9 / 10 then
        (gold_step o gold st).bind (gold_loop o gold fuel)
      else .ok st) ∧
    (st.pool = [] → ∀ f, gold_loop o gold f st = .ok st) := by
  have hiff : goldGuard st = true ↔ (st.pool ≠ [] ∧ bestPosF1 st < 9 / 10) := by
    rw [← q09_eq]
    exact gold_guard_iff o gold st h
  constructor
  · by_cases hg : goldGuard st
    · rw [if_pos (hiff.mp hg)]
      simp only [gold_loop, hg, if_true]
      rfl
    · rw [if_neg (fun hh => hg (hiff.mpr hh))]
      simp only [gold_loop]
      rw [if_neg hg]
  · intro hpool f
    have hgf : goldGuard st = false := by
      simp [goldGuard, hpool]
    cases f with
    | zero => simp [gold_loop, hgf]
    | succ n => simp [gold_loop, hgf]

theorem generate_with_gold_guard_witness :
    gold_loop extTrivial [] 1 ⟨[(({} : Graph), ⟨0, 0, 0⟩, [])], [], []⟩ =
      (if (⟨[(({} : Graph), ⟨0, 0, 0⟩, [])], [], []⟩ : GoldState).pool ≠ [] ∧
          bestPosF1 ⟨[(({} : Graph), ⟨0, 0, 0⟩, [])], [], []⟩ < 9 / 10 then
        (gold_step extTrivial [] ⟨[(({} : Graph), ⟨0, 0, 0⟩, [])], [], []⟩).bind
          (gold_loop extTrivial [] 0)
      else .ok ⟨[(({} : Graph), ⟨0, 0, 0⟩, [])], [], []⟩) :=
  (generate_with_gold_guard extTrivial [] _ (GoldReachable.init {}) 0).1

theorem gold_pool_sorted_inv (o : Oracles) (gold : List String) (st : GoldState)
    (h : GoldReachable o gold st) : st.pool.Sorted candGE := by
  induction h with
  | init g => exact List.sorted_singleton _
  | step st st' hr hguard hstep ih =>
    rcases gold_step_shape o gold st st' hstep with heq | hca | hcb
    · rw [heq]; exact ih
    · rcases hca with ⟨g, rest, hpool, _, hpool2⟩
      rw [hpool2]
      rw [hpool] at ih
      exact ih.of_cons
    · rcases hcb with ⟨g, rest, l, hpool, _, hpool2⟩
      rw [hpool2]
      exact List.sorted_insertionSort candGE _

/-- C2 (amended): in the gold-guided search the pool is non-increasing in
F1 at every reachable state (it is re-sorted whenever it is extended), so a
popped front entry always has maximal score among the pool.  (The
model-guided search does not re-sort its pool — see the counterexample.) -/
theorem gold_pool_head_max (o : Oracles) (gold : List String) (st : GoldState)
    (h : GoldReachable o gold st) :
    st.pool.Sorted candGE ∧
    ∀ g rest, st.pool = g :: rest → ∀ x ∈ rest, f1OfCand x ≤ f1OfCand g := by
  have hs := gold_pool_sorted_inv o gold st h
  refine ⟨hs, ?_⟩
  intro g rest hpool x hx
  rw [hpool] at hs
  exact List.rel_of_sorted_cons hs x hx

/-- The oracle `oC5` whose restrict operator proposes the skeleton `skC5`. -/
def oC2G : Oracles := { oC5 with restrict := fun _ => [skC5] }

/-- The seeded state of a gold-guided search. -/
def stG0 : GoldState := ⟨[(({ tokens := ["s"] } : Graph), ⟨0, 0, 0⟩, [])], [], []⟩

/-- The state after one gold-guided iteration under `oC2G`. -/
def stG1 : GoldState :=
  ⟨[(g1C5, ⟨1, 1, 1⟩, [["A"]])], [], [(g2C5, ⟨0, 0, 0⟩, 1)]⟩

theorem gold_pool_head_max_witness :
    gold_step oC2G ["a"] stG0 = .ok stG1 ∧ stG1.pool.Sorted candGE := by
  have h1 : gold_step oC2G ["a"] stG0 = .ok stG1 := by decide
  have hr : GoldReachable oC2G ["a"] stG1 :=
    GoldReachable.step stG0 stG1
      (GoldReachable.init ({ tokens := ["s"] } : Graph)) (by decide) h1
  exact ⟨h1, (gold_pool_head_max oC2G ["a"] stG1 hr).1⟩

/-- The state of the `generate_with_model` search loop. -/
structure ModelState where
  pool : List MCand
  generated : List MCand
deriving DecidableEq, Repr

/-- One iteration of the `generate_with_model` loop (assuming the pool is
non-empty): pop the front graph, restrict, label, expand, ground and score
against the popped graph's own score, then requeue and record whatever was
chosen.  The pool is extended without re-sorting. -/
def model_step (o : Oracles) (beam_size : Nat) (st : ModelState) :
    Except String ModelState :=
  match st.pool with
  | [] => .ok st
  | g :: rest => do
    let restricted := (o.restrict g.1).map (add_canonical_labels_to_entities o)
    let suggested := restricted ++ restricted.flatMap o.expand
    let chosen ← ground_with_model o suggested g.2 beam_size
    if chosen.length > 0 then
      .ok ⟨rest ++ chosen, st.generated ++ chosen⟩
    else .ok ⟨rest, st.generated⟩

/-- The `while pool` loop of `generate_with_model`, with fuel. -/
def model_loop (o : Oracles) (beam_size : Nat) :
    Nat → ModelState → Except String ModelState
  | 0, st => if !st.pool.isEmpty then .error "fuel" else .ok st
  | fuel + 1, st =>
    if !st.pool.isEmpty then do
      let st2 ← model_step o beam_size st
      model_loop o beam_size fuel st2
    else .ok st

/-- Python `generate_with_model(ungrounded_graph, qa_model, beam_size)`. -/
def generate_with_model (o : Oracles) (fuel : Nat) (ungrounded_graph : Graph)
    (beam_size : Nat) : Except String (List MCand) := do
  let g ← link_entities_in_graph o ungrounded_graph
  let st ← model_loop o beam_size fuel ⟨[(g, -1)], []⟩
  .ok (pySortModel st.generated)

/-- The states the `generate_with_model` loop can reach at its guard check. -/
inductive ModelReachable (o : Oracles) (beam_size : Nat) : ModelState → Prop
  | init (g : Graph) : ModelReachable o beam_size ⟨[(g, -1)], []⟩
  | step (st st' : ModelState) : ModelReachable o beam_size st →
      st.pool.isEmpty = false → model_step o beam_size st = .ok st' →
      ModelReachable o beam_size st'

/-- Seed graph for the model-guided pool counterexample. -/
def gSC2 : Graph := { tokens := ["s"], edgeSet := [{}] }

/-- The restricted skeleton proposed from the seed. -/
def gAC2 : Graph := { tokens := ["a"], edgeSet := [{}] }

/-- The skeleton proposed from the best first-round candidate. -/
def gDC2 : Graph := { tokens := ["d"], edgeSet := [{}] }

/-- Oracles for the model-guided counterexample: the first restriction
grounds to two candidates scoring 9 and 1, and refining the 9-candidate
yields a candidate scoring 19. -/
def oC2 : Oracles :=
  { extTrivial with
    restrict := fun g =>
      if g.tokens == ["s"] then [gAC2]
      else if (g.edgeSet.head?.map fun e => e.kbID) = some (some "P1v") then [gDC2]
      else []
    query_graph_groundings := fun g =>
      if g.tokens == ["a"] then [[("r0d", "P1v")], [("r0d", "P2v")]]
      else if g.tokens == ["d"] then [[("r0d", "P3v")]]
      else []
    scores_for_instance := fun gs =>
      gs.map fun g =>
        match g.edgeSet.head? with
        | some e =>
          if e.kbID == some "P1v" then 9
          else if e.kbID == some "P2v" then 1
          else if e.kbID == some "P3v" then 19
          else 0
        | none => 0
    get_graph_last_edge := fun g => (g.edgeSet.getLast?).getD {} }

/-- The grounded candidates of the counterexample run. -/
def gA1C2 : Graph := { tokens := ["a"], edgeSet := [{ type := some "direct", kbID := some "P1v" }] }

/-- The low-scoring grounded candidate of the first iteration. -/
def gA2C2 : Graph := { tokens := ["a"], edgeSet := [{ type := some "direct", kbID := some "P2v" }] }

/-- The high-scoring grounded candidate of the second iteration. -/
def gD1C2 : Graph := { tokens := ["d"], edgeSet := [{ type := some "direct", kbID := some "P3v" }] }

/-- The seeded model-guided state. -/
def stM0 : ModelState := ⟨[(gSC2, -1)], []⟩

/-- The model-guided state after one iteration. -/
def stM1 : ModelState := ⟨[(gA1C2, 9), (gA2C2, 1)], [(gA1C2, 9), (gA2C2, 1)]⟩

/-- The model-guided state after two iterations: the front (next-popped)
entry scores 1 while the entry behind it scores 19. -/
def stM2 : ModelState := ⟨[(gA2C2, 1), (gD1C2, 19)], [(gA1C2, 9), (gA2C2, 1), (gD1C2, 19)]⟩

/-- C2 counterexample: in `generate_with_model` the pool is extended without
re-sorting, so a reachable state has a front entry (the next to be popped)
with a strictly lower score than an entry remaining behind it: after two
iterations under `oC2` the pool is `[(gA2C2, 1), (gD1C2, 19)]`. -/
theorem generate_with_model_pool_not_sorted :
    model_step oC2 10 stM0 = .ok stM1 ∧
    model_step oC2 10 stM1 = .ok stM2 ∧
    ModelReachable oC2 10 stM2 ∧
    stM2.pool = [(gA2C2, 1), (gD1C2, 19)] ∧
    ¬ stM2.pool.Sorted mcandGE ∧ (1 : ℚ) < 19 := by
  have h1 : model_step oC2 10 stM0 = .ok stM1 := by decide
  have h2 : model_step oC2 10 stM1 = .ok stM2 := by decide
  refine ⟨h1, h2, ?_, rfl, ?_, by decide⟩
  · exact ModelReachable.step stM1 stM2
      (ModelReachable.step stM0 stM1 (ModelReachable.init gSC2) (by decide) h1)
      (by decide) h2
  · intro h
    have := List.rel_of_sorted_cons h (gD1C2, 19) (by simp)
    exact absurd this (by decide)

/-- A store of graph objects: references are indices, allocation appends. -/
abbrev Store := List Graph

/-- Modelled from the spec: `graph.copy_graph` (repository code outside the
provided sources) is a deep copy returning a fresh object, per the spec's
"Graphs are value objects" and the `apply_grounding` doctests.  At the
reference level `apply_grounding` therefore writes its grounded copy into a
freshly allocated cell and leaves the input cell untouched. -/
def apply_grounding_ref (σ : Store) (r : Nat) (grounding : Grounding) : Store × Nat :=
  (σ ++ [apply_grounding (σ.getD r {}) grounding], σ.length)

/-- Python `add_canonical_labels_to_entities` at the reference level: the function
writes `edge['canonical_right']` on the edges of its argument and returns
the very same object (`return g`), so the input cell is updated in place. -/
def add_canonical_labels_ref (o : Oracles) (σ : Store) (r : Nat) : Store × Nat :=
  (σ.set r (add_canonical_labels_to_entities o (σ.getD r {})), r)

/-- Python `link_entities_in_graph` at the reference level: the function assigns
`ungrounded_graph['entities']` (and mutates entity objects) in place and
returns the same object; a `TypeError` aborts with no result. -/
def link_entities_ref (o : Oracles) (σ : Store) (r : Nat) : Option (Store × Nat) :=
  match link_entities_in_graph o (σ.getD r {}) with
  | .ok g => some (σ.set r g, r)
  | .error _ => none

/-- A label oracle that returns a label for every entity id. -/
def oC7 : Oracles := { extTrivial with label_entity := fun _ => some "X" }

/-- A graph with an unlabeled entity filler. -/
def gC7 : Graph := { edgeSet := [{ rightkbID := some "Q1" }] }

/-- C7 counterexample: `add_canonical_labels_to_entities` does not return a
copy and does not leave its input unchanged — it returns the same reference
and the graph stored there has changed. -/
theorem add_canonical_labels_mutates_in_place :
    (add_canonical_labels_ref oC7 [gC7] 0).2 = 0 ∧
    (add_canonical_labels_ref oC7 [gC7] 0).1.getD 0 {} ≠ ([gC7] : Store).getD 0 {} := by
  constructor
  · decide
  · decide

/-- C7 (amended): `apply_grounding` allocates a fresh copy — the returned
reference is new, the input cell is unchanged, and the new cell holds the
grounded copy — whereas `add_canonical_labels_to_entities` and
`link_entities_in_graph` update the input graph in place and return the
same reference. -/
theorem apply_grounding_copies (o : Oracles) (σ : Store) (r : Nat)
    (gr : Grounding) (h : r < σ.length) :
    (apply_grounding_ref σ r gr).2 ≠ r ∧
    (apply_grounding_ref σ r gr).1.getD r {} = σ.getD r {} ∧
    (apply_grounding_ref σ r gr).1.getD (apply_grounding_ref σ r gr).2 {} =
      apply_grounding (σ.getD r {}) gr ∧
    (∀ o2 s, (add_canonical_labels_ref o2 s r).2 = r) ∧
    (∀ s res, link_entities_ref o s r = some res → res.2 = r) := by
  refine ⟨?_, ?_, ?_, fun o2 s => rfl, ?_⟩
  · exact fun hh => absurd hh.symm (Nat.ne_of_lt h)
  · unfold apply_grounding_ref
    simp only [List.getD]
    rw [List.get?_append h]
  · unfold apply_grounding_ref
    simp only [List.getD]
    rw [List.get?_concat_length]
    rfl
  · intro s res hres
    unfold link_entities_ref at hres
    cases hl : link_entities_in_graph o (s.getD r {}) with
    | ok g => rw [hl] at hres; cases hres; rfl
    | error e => rw [hl] at hres; cases hres

theorem apply_grounding_copies_witness :
    (0 < ([gC7] : Store).length) ∧
    (apply_grounding_ref [gC7] 0 []).2 ≠ 0 ∧
    (apply_grounding_ref [gC7] 0 []).1.getD 0 {} = ([gC7] : Store).getD 0 {} := by
  have h := apply_grounding_copies extTrivial [gC7] 0 [] (by decide)
  exact ⟨by decide, h.1, h.2.1⟩
